import Mathlib

/-!
Verification of the streaming state machine of the apibara-dna repository:
the sequential cursor producer (`src/starknet/src/stream/cursor_producer.rs`)
and the stream driver loop (`src/node/src/stream/data.rs`).

Machine integers (`u64` block numbers, `usize` batch sizes) are modelled as
`Nat`; the one place where the source can underflow
(`next_block_number + batch_size - 1`) is modelled with an explicit checked
subtraction whose failure is a distinguished panic outcome, mirroring the
behaviour of Rust debug arithmetic.  Fallible storage access is modelled with
`Except`; Rust `?` propagation becomes explicit `match` propagation.
-/

set_option maxHeartbeats 1000000

namespace Apibara

/-- A `GlobalBlockId` identifies a block by number and hash (the crate's core
cursor type, declared outside the streamed sources).  Modelled from the spec:
a cursor is a `(block_number, block_hash)` pair; a hash equal to zero is the
all-zero hash used by clients as a number-only hint. -/
structure GlobalBlockId where
  number : Nat
  hash : Nat
deriving DecidableEq, Repr

/-- Modelled from the spec: block headers carry the block number and the
parent hash (`read_header` returns the block header carrying the parent
hash). -/
structure BlockHeader where
  block_number : Nat
  parent_hash : Nat
deriving DecidableEq, Repr

/-- Modelled from the spec: `GlobalBlockId::from_block_header_parent` builds
the cursor of the parent block from a header (the walk in `reconfigure` moves
to the block identified by the parent hash, one number below). -/
def from_block_header_parent (header : BlockHeader) : GlobalBlockId :=
  { number := header.block_number - 1, hash := header.parent_hash }

/-- Modelled from the spec: `BlockStatus ∈ {Rejected, AcceptedOnL2,
AcceptedOnL1, …}` with `is_accepted()` and `is_finalized()` predicates
(finalized means accepted on L1). -/
inductive BlockStatus where
  | rejected
  | acceptedOnL2
  | acceptedOnL1
deriving DecidableEq, Repr

def BlockStatus.is_accepted : BlockStatus → Bool
  | .acceptedOnL2 => true
  | .acceptedOnL1 => true
  | .rejected => false

def BlockStatus.is_finalized : BlockStatus → Bool
  | .acceptedOnL1 => true
  | _ => false

/-- `DataFinality` from `apibara_core::node::v1alpha2`. -/
inductive DataFinality where
  | dataStatusUnknown
  | dataStatusFinalized
  | dataStatusAccepted
  | dataStatusPending
deriving DecidableEq, Repr

/-- Abstract storage failure; the source is generic over `R::Error`. -/
inductive StorageErr where
  | err
deriving DecidableEq, Repr

/-- A producer-level failure: a propagated storage error, or a Rust panic
(a failed `expect` or an arithmetic underflow). -/
inductive PErr where
  | storage (e : StorageErr)
  | panicked (msg : String)
deriving DecidableEq, Repr

/-- The `StorageReader` interface consumed by the cursor producer
(`crate::db::StorageReader`, an external collaborator per the spec). -/
structure StorageReader where
  canonical_block_id : Nat → Except StorageErr (Option GlobalBlockId)
  read_status : GlobalBlockId → Except StorageErr (Option BlockStatus)
  read_header : GlobalBlockId → Except StorageErr (Option BlockHeader)
  highest_accepted_block : Except StorageErr (Option GlobalBlockId)
  highest_finalized_block : Except StorageErr (Option GlobalBlockId)

deriving instance DecidableEq for Except

/-- Propagation of a storage error out of a producer operation (Rust `?`). -/
def liftStorage {α : Type} : Except StorageErr α → Except PErr α
  | .error e => .error (.storage e)
  | .ok a => .ok a

/-- `u64` subtraction with the Rust debug-mode underflow panic made explicit. -/
def checked_sub_u64 (a b : Nat) : Except PErr Nat :=
  if a < b then .error (.panicked "attempt to subtract with overflow")
  else .ok (a - b)

/-- `BatchCursor` from `apibara_node::stream` (declared outside the streamed
sources).  Modelled from the spec: a tagged variant `Finalized(start, [c1..cn])
| Accepted(start, c) | Pending(start, c)` where `start` is the cursor the
client last advanced to. -/
inductive BatchCursor where
  | finalized (start : Option GlobalBlockId) (cursors : List GlobalBlockId)
  | accepted (start : Option GlobalBlockId) (cursor : GlobalBlockId)
  | pending (start : Option GlobalBlockId) (cursor : GlobalBlockId)
deriving DecidableEq, Repr

/-- Modelled from the spec: `end_cursor()` returns the last cursor of the
payload (the payload is non-empty in every construction performed by the
producer, so the optional result is `some` wherever the source reads it). -/
def BatchCursor.end_cursor : BatchCursor → Option GlobalBlockId
  | .finalized _ cursors => cursors.getLast?
  | .accepted _ cursor => some cursor
  | .pending _ cursor => some cursor

/-- The block cursors carried in the payload of a batch cursor (the cursors
the client receives data for; the `start` resume marker is not part of the
payload). -/
def BatchCursor.payload_cursors : BatchCursor → List GlobalBlockId
  | .finalized _ cursors => cursors
  | .accepted _ cursor => [cursor]
  | .pending _ cursor => [cursor]

/-- `IngestionMessage` events pushed by the node. -/
inductive IngestionMessage where
  | pending (cursor : GlobalBlockId)
  | accepted (cursor : GlobalBlockId)
  | finalized (cursor : GlobalBlockId)
  | invalidate (cursor : GlobalBlockId)
deriving DecidableEq, Repr

/-- Response of `handle_ingestion_message`. -/
inductive IngestionResponse where
  | ok
  | invalidate (cursor : GlobalBlockId)
deriving DecidableEq, Repr

/-- Response of `reconfigure`. -/
inductive ReconfigureResponse where
  | ok
  | missingStartingCursor
  | invalidate (cursor : GlobalBlockId)
deriving DecidableEq, Repr

/-- A client stream configuration (the filter field is consumed only by the
external batch producer and is omitted). -/
structure StreamConfiguration where
  stream_id : Nat
  starting_cursor : Option GlobalBlockId
  finality : DataFinality
  batch_size : Nat
deriving DecidableEq, Repr

/-- The producer's stored configuration (`BatchConfiguration` in the source). -/
structure BatchConfiguration where
  current : Option GlobalBlockId
  pending_sent : Bool
  data_finality : DataFinality
  batch_size : Nat
deriving DecidableEq, Repr

/-- The producer's cached view of the chain tips (`IngestionState`). -/
structure IngestionState where
  finalized : Option GlobalBlockId
  accepted : Option GlobalBlockId
  pending : Option GlobalBlockId
deriving DecidableEq, Repr

/-- The mutable state of a `SequentialCursorProducer`: the stored
configuration, the lazily initialized ingestion view, and whether a wakeup
handle is currently stored. -/
structure ProducerState where
  configuration : Option BatchConfiguration
  ingestion_state : Option IngestionState
  waker : Bool
deriving DecidableEq, Repr

/-- `SequentialCursorProducer::new`. -/
def producer_new : ProducerState :=
  { configuration := none, ingestion_state := none, waker := false }

/-- `configuration.current.map(|c| c.number() + 1).unwrap_or(0)`. -/
def next_block_number_of (current : Option GlobalBlockId) : Nat :=
  match current with
  | some c => c.number + 1
  | none => 0

/-- `get_ingestion_state` / `get_ingestion_state_mut`: return the cached
ingestion view, lazily loading it from storage on first use (accepted and
finalized tips from storage, pending `None`). -/
def get_ingestion_state (storage : StorageReader) (st : ProducerState) :
    Except PErr (IngestionState × ProducerState) :=
  match st.ingestion_state with
  | some s => .ok (s, st)
  | none =>
    match liftStorage storage.highest_accepted_block with
    | .error e => .error e
    | .ok accepted =>
      match liftStorage storage.highest_finalized_block with
      | .error e => .error e
      | .ok finalized =>
        let s : IngestionState :=
          { accepted := accepted, finalized := finalized, pending := none }
        .ok (s, { st with ingestion_state := some s })

/-- The collection loop of `next_cursor_finalized`: look up
`canonical_block_id` for `count` consecutive block numbers starting at
`block_number`, stopping at the first absent cursor and propagating storage
errors. -/
def collect_canonical (storage : StorageReader) :
    Nat → Nat → Except PErr (List GlobalBlockId)
  | _, 0 => .ok []
  | block_number, count + 1 =>
    match liftStorage (storage.canonical_block_id block_number) with
    | .error e => .error e
    | .ok none => .ok []
    | .ok (some cursor) =>
      match collect_canonical storage (block_number + 1) count with
      | .error e => .error e
      | .ok rest => .ok (cursor :: rest)

/-- `next_cursor_finalized`. -/
def next_cursor_finalized (storage : StorageReader) (st : ProducerState)
    (starting_cursor : Option GlobalBlockId) (next_block_number : Nat)
    (finalized : GlobalBlockId) :
    Except PErr (Option BatchCursor × ProducerState) :=
  match st.configuration with
  | none => .error (.panicked "configuration")
  | some configuration =>
    match checked_sub_u64 (next_block_number + configuration.batch_size) 1 with
    | .error e => .error e
    | .ok n =>
      let final_block_number := Nat.min finalized.number n
      match collect_canonical storage next_block_number
          (final_block_number + 1 - next_block_number) with
      | .error e => .error e
      | .ok cursors =>
        if cursors.isEmpty then .ok (none, st)
        else
          let batch_cursor := BatchCursor.finalized starting_cursor cursors
          let configuration := { configuration with current := batch_cursor.end_cursor }
          .ok (some batch_cursor, { st with configuration := some configuration })

/-- `next_cursor_accepted`. -/
def next_cursor_accepted (storage : StorageReader) (st : ProducerState)
    (starting_cursor : Option GlobalBlockId) (next_block_number : Nat) :
    Except PErr (Option BatchCursor × ProducerState) :=
  match st.configuration with
  | none => .error (.panicked "configuration")
  | some configuration =>
    if configuration.data_finality = DataFinality.dataStatusFinalized ∨
        configuration.data_finality = DataFinality.dataStatusUnknown then
      .ok (none, st)
    else
      match liftStorage (storage.canonical_block_id next_block_number) with
      | .error e => .error e
      | .ok (some cursor) =>
        let batch_cursor := BatchCursor.accepted starting_cursor cursor
        let configuration := { configuration with current := batch_cursor.end_cursor }
        .ok (some batch_cursor, { st with configuration := some configuration })
      | .ok none => .ok (none, st)

/-- `next_cursor_pending`. -/
def next_cursor_pending (storage : StorageReader) (st : ProducerState)
    (starting_cursor : Option GlobalBlockId) (next_block_number : Nat) :
    Except PErr (Option BatchCursor × ProducerState) :=
  match st.configuration with
  | none => .error (.panicked "configuration")
  | some configuration =>
    if configuration.data_finality ≠ DataFinality.dataStatusPending ∨
        configuration.pending_sent = true then
      .ok (none, st)
    else
      match liftStorage (storage.canonical_block_id next_block_number) with
      | .error e => .error e
      | .ok (some cursor) =>
        let batch_cursor := BatchCursor.pending starting_cursor cursor
        let configuration := { configuration with pending_sent := true }
        .ok (some batch_cursor, { st with configuration := some configuration })
      | .ok none => .ok (none, st)

/-- The pending fallthrough of `next_cursor_with_configuration`:
`if let Some(pending) = pending_cursor { if next_block_number <= pending.number() { … } }`. -/
def next_cursor_try_pending (storage : StorageReader) (st : ProducerState)
    (state : IngestionState) (starting_cursor : Option GlobalBlockId)
    (next_block_number : Nat) :
    Except PErr (Option BatchCursor × ProducerState) :=
  match state.pending with
  | some pending =>
    if next_block_number ≤ pending.number then
      next_cursor_pending storage st starting_cursor next_block_number
    else .ok (none, st)
  | none => .ok (none, st)

/-- The accepted fallthrough of `next_cursor_with_configuration`. -/
def next_cursor_try_accepted (storage : StorageReader) (st : ProducerState)
    (state : IngestionState) (starting_cursor : Option GlobalBlockId)
    (next_block_number : Nat) :
    Except PErr (Option BatchCursor × ProducerState) :=
  match state.accepted with
  | some accepted =>
    if next_block_number ≤ accepted.number then
      next_cursor_accepted storage st starting_cursor next_block_number
    else next_cursor_try_pending storage st state starting_cursor next_block_number
  | none => next_cursor_try_pending storage st state starting_cursor next_block_number

/-- `next_cursor_with_configuration`. -/
def next_cursor_with_configuration (storage : StorageReader)
    (st : ProducerState) : Except PErr (Option BatchCursor × ProducerState) :=
  match get_ingestion_state storage st with
  | .error e => .error e
  | .ok (state, st) =>
    match st.configuration with
    | none => .error (.panicked "configuration")
    | some configuration =>
      let starting_cursor := configuration.current
      let next_block_number := next_block_number_of configuration.current
      match state.finalized with
      | some finalized =>
        if next_block_number ≤ finalized.number then
          next_cursor_finalized storage st starting_cursor next_block_number finalized
        else
          next_cursor_try_accepted storage st state starting_cursor next_block_number
      | none =>
        next_cursor_try_accepted storage st state starting_cursor next_block_number

/-- `next_cursor`. -/
def next_cursor (storage : StorageReader) (st : ProducerState) :
    Except PErr (Option BatchCursor × ProducerState) :=
  if st.configuration.isSome then next_cursor_with_configuration storage st
  else .ok (none, st)

/-- `wake`: take the stored wakeup handle and wake it; the returned count is
the number of wakeups performed (`0` or `1`). -/
def wake (st : ProducerState) : ProducerState × Nat :=
  if st.waker then ({ st with waker := false }, 1) else (st, 0)

/-- `lowest_cursor`: whichever of the two cursors has the lower block number
(the second on a tie). -/
def lowest_cursor (a b : GlobalBlockId) : GlobalBlockId :=
  if a.number < b.number then a else b

/-- Mark the pending block as ready to send again
(`configuration.pending_sent = false` in the `Pending` arm). -/
def set_pending_not_sent (c : BatchConfiguration) : BatchConfiguration :=
  { c with pending_sent := false }

/-- `handle_ingestion_message`.  The result carries the response, the updated
state, and the number of wakeups performed. -/
def handle_ingestion_message (storage : StorageReader) (st : ProducerState)
    (message : IngestionMessage) :
    Except PErr (IngestionResponse × ProducerState × Nat) :=
  match get_ingestion_state storage st with
  | .error e => .error e
  | .ok (state, st) =>
    let rst :=
      match message with
      | .pending cursor =>
        (IngestionResponse.ok,
         { state with pending := some cursor },
         { st with configuration := st.configuration.map set_pending_not_sent })
      | .accepted cursor =>
        (IngestionResponse.ok,
         { state with finalized := none, accepted := some cursor }, st)
      | .finalized cursor =>
        (IngestionResponse.ok, { state with finalized := some cursor }, st)
      | .invalidate cursor =>
        let state :=
          { state with
            pending := none,
            accepted := state.accepted.map (fun (c : GlobalBlockId) => lowest_cursor c cursor),
            finalized := state.finalized.map (fun (c : GlobalBlockId) => lowest_cursor c cursor) }
        match st.configuration with
        | some configuration =>
          let is_invalidated :=
            (configuration.current.map (fun (c : GlobalBlockId) => decide (cursor.number < c.number))).getD false
          let configuration :=
            { configuration with
              current := configuration.current.map (fun (c : GlobalBlockId) => lowest_cursor c cursor) }
          let st := { st with configuration := some configuration }
          (if is_invalidated then IngestionResponse.invalidate cursor
           else IngestionResponse.ok, state, st)
        | none => (IngestionResponse.ok, state, st)
    match rst with
    | (response, state, st) =>
      let st := { st with ingestion_state := some state }
      match wake st with
      | (st, n) => .ok (response, st, n)

/-- The tail of `reconfigure`: replace the stored configuration and wake the
subscription. -/
def reconfigure_finish (response : ReconfigureResponse)
    (current : Option GlobalBlockId) (cfg : StreamConfiguration)
    (st : ProducerState) :
    Except PErr (ReconfigureResponse × ProducerState × Nat) :=
  let configuration : BatchConfiguration :=
    { data_finality := cfg.finality, pending_sent := false,
      current := current, batch_size := cfg.batch_size }
  let st := { st with configuration := some configuration }
  match wake st with
  | (st, n) => .ok (response, st, n)

/-- The backward walk of `reconfigure`: follow parent headers until reaching
an ancestor whose status is accepted or finalized.  The Rust loop is
unbounded; with well-formed headers every step decreases the block number, so
the fuel `starting_cursor.number + 1` used in `reconfigure` is never
exhausted before reaching block 0, and exhaustion is modelled as the
divergence panic. -/
def walk_back (storage : StorageReader) :
    Nat → GlobalBlockId → Except PErr (Option GlobalBlockId)
  | 0, _ => .error (.panicked "reorg walk did not terminate")
  | fuel + 1, new_root =>
    match liftStorage (storage.read_status new_root) with
    | .error e => .error e
    | .ok none => .ok none
    | .ok (some status) =>
      if status.is_accepted || status.is_finalized then .ok (some new_root)
      else
        match liftStorage (storage.read_header new_root) with
        | .error e => .error e
        | .ok none => .ok none
        | .ok (some header) =>
          walk_back storage fuel (from_block_header_parent header)

/-- The part of `reconfigure` after the zero-hash starting cursor has been
resolved to a concrete cursor. -/
def reconfigure_resolved (storage : StorageReader) (cfg : StreamConfiguration)
    (st : ProducerState) (starting_cursor : GlobalBlockId) :
    Except PErr (ReconfigureResponse × ProducerState × Nat) :=
  match liftStorage (storage.read_status starting_cursor) with
  | .error e => .error e
  | .ok none => .ok (.missingStartingCursor, st, 0)
  | .ok (some starting_status) =>
    if starting_status.is_accepted || starting_status.is_finalized then
      reconfigure_finish .ok (some starting_cursor) cfg st
    else
      match walk_back storage (starting_cursor.number + 1) starting_cursor with
      | .error e => .error e
      | .ok none => .ok (.missingStartingCursor, st, 0)
      | .ok (some new_root) =>
        reconfigure_finish (.invalidate new_root) (some new_root) cfg st

/-- `reconfigure`.  The result carries the response, the updated state, and
the number of wakeups performed; the `MissingStartingCursor` early returns
leave the state untouched and perform no wakeup. -/
def reconfigure (storage : StorageReader) (cfg : StreamConfiguration)
    (st : ProducerState) :
    Except PErr (ReconfigureResponse × ProducerState × Nat) :=
  match cfg.starting_cursor with
  | none => reconfigure_finish .ok none cfg st
  | some starting_cursor =>
    if starting_cursor.hash = 0 then
      match liftStorage (storage.canonical_block_id starting_cursor.number) with
      | .error e => .error e
      | .ok none => .ok (.missingStartingCursor, st, 0)
      | .ok (some resolved) => reconfigure_resolved storage cfg st resolved
    else reconfigure_resolved storage cfg st starting_cursor

/-- `Stream::poll_next` on the producer: on `Ok(None)` the caller's wakeup
handle is stored and the poll is pending. -/
def poll_next (storage : StorageReader) (st : ProducerState) :
    Except PErr (Option BatchCursor × ProducerState) :=
  match next_cursor storage st with
  | .error e => .error e
  | .ok (none, st) => .ok (none, { st with waker := true })
  | .ok (some b, st) => .ok (some b, st)

/-- One operation applied to the producer by its environment. -/
inductive Op where
  | ingest (message : IngestionMessage)
  | reconfig (cfg : StreamConfiguration)
  | poll
deriving DecidableEq, Repr

/-- The observable outcome of one operation. -/
inductive Output where
  | ingestResp (response : IngestionResponse)
  | reconfigResp (response : ReconfigureResponse)
  | polled (batch : Option BatchCursor)
deriving DecidableEq, Repr

/-- Apply one operation to the producer. -/
def step_op (storage : StorageReader) (st : ProducerState) :
    Op → Except PErr (Output × ProducerState)
  | .ingest message =>
    match handle_ingestion_message storage st message with
    | .error e => .error e
    | .ok (r, st, _) => .ok (.ingestResp r, st)
  | .reconfig cfg =>
    match reconfigure storage cfg st with
    | .error e => .error e
    | .ok (r, st, _) => .ok (.reconfigResp r, st)
  | .poll =>
    match poll_next storage st with
    | .error e => .error e
    | .ok (b, st) => .ok (.polled b, st)

/-- Run a list of operations, collecting the outputs; `none` when an
operation fails. -/
def run (storage : StorageReader) :
    ProducerState → List Op → Option (List Output × ProducerState)
  | st, [] => some ([], st)
  | st, op :: ops =>
    match step_op storage st op with
    | .error _ => none
    | .ok (out, st) =>
      match run storage st ops with
      | none => none
      | some (outs, stF) => some (out :: outs, stF)

/-- The payload cursors delivered by an output (empty unless the output is a
produced batch). -/
def Output.payload_cursors : Output → List GlobalBlockId
  | .polled (some b) => b.payload_cursors
  | _ => []

/-- The invalidation cursor announced by an output, when any. -/
def Output.invalidation : Output → Option GlobalBlockId
  | .ingestResp (.invalidate c) => some c
  | .reconfigResp (.invalidate c) => some c
  | _ => none

/-- Whether an output is a `Pending` batch cursor. -/
def Output.is_pending_batch : Output → Bool
  | .polled (some (.pending _ _)) => true
  | _ => false

/-- Whether an operation is a reconfiguration. -/
def Op.is_reconfig : Op → Bool
  | .reconfig _ => true
  | _ => false

/-- Whether an operation is a `Pending` ingestion message. -/
def Op.is_pending_message : Op → Bool
  | .ingest (.pending _) => true
  | _ => false

/-- The branch of the driver's prioritized select taken in one iteration. -/
inductive DriverBranch where
  | configurationBranch
  | ingestionBranch
  | batchBranch
deriving DecidableEq, Repr

/-- One outbound effect of a driver iteration. -/
inductive DriverOutput where
  | nothingOut
  | invalidateOut (stream_id : Nat) (cursor : GlobalBlockId)
  | dataOut (stream_id : Nat) (cursor : Option GlobalBlockId)
      (end_cursor : Option GlobalBlockId) (finality : DataFinality)
      (cursors : List GlobalBlockId)
  | invalidRequestOut
  | internalErrorOut
deriving DecidableEq, Repr

/-- The driver's mutable state: the active stream generation and the cursor
producer. -/
structure DriverState where
  stream_id : Nat
  producer : ProducerState
deriving DecidableEq, Repr

/-- The destructuring performed by `handle_batch_cursor` in the driver:
`Finalized(start, cs) ↦ (start, cs, cs.last(), Finalized)` and the singleton
cases for accepted and pending batches. -/
def handle_batch_cursor_data (stream_id : Nat) (batch_cursor : BatchCursor) :
    DriverOutput :=
  match batch_cursor with
  | .finalized start_cursor cursors =>
    .dataOut stream_id start_cursor cursors.getLast?
      DataFinality.dataStatusFinalized cursors
  | .accepted start_cursor cursor =>
    .dataOut stream_id start_cursor (some cursor)
      DataFinality.dataStatusAccepted [cursor]
  | .pending start_cursor cursor =>
    .dataOut stream_id start_cursor (some cursor)
      DataFinality.dataStatusPending [cursor]

/-- One iteration of the driver loop of `new_data_stream`.  The
`tokio::select!` in the source is `biased`, polling the three sources in
declaration order: the configuration stream first, then the ingestion stream,
and the cursor producer only when neither has a ready event; this function is
that prioritized selection, applied to the ready events of the two input
streams. -/
def driver_iteration (storage : StorageReader) (st : DriverState)
    (configuration_event : Option StreamConfiguration)
    (ingestion_event : Option IngestionMessage) :
    DriverBranch × DriverOutput × DriverState :=
  match configuration_event with
  | some cfg =>
    match reconfigure storage cfg st.producer with
    | .error _ => (.configurationBranch, .internalErrorOut, st)
    | .ok (response, producer, _) =>
      let st : DriverState := { stream_id := cfg.stream_id, producer := producer }
      match response with
      | .ok => (.configurationBranch, .nothingOut, st)
      | .missingStartingCursor => (.configurationBranch, .invalidRequestOut, st)
      | .invalidate cursor =>
        (.configurationBranch, .invalidateOut st.stream_id cursor, st)
  | none =>
    match ingestion_event with
    | some message =>
      match handle_ingestion_message storage st.producer message with
      | .error _ => (.ingestionBranch, .internalErrorOut, st)
      | .ok (response, producer, _) =>
        let st : DriverState := { st with producer := producer }
        match response with
        | .ok => (.ingestionBranch, .nothingOut, st)
        | .invalidate cursor =>
          (.ingestionBranch, .invalidateOut st.stream_id cursor, st)
    | none =>
      match poll_next storage st.producer with
      | .error _ => (.batchBranch, .internalErrorOut, st)
      | .ok (none, producer) =>
        (.batchBranch, .nothingOut, { st with producer := producer })
      | .ok (some batch_cursor, producer) =>
        (.batchBranch, handle_batch_cursor_data st.stream_id batch_cursor,
          { st with producer := producer })

/-- A storage is number-consistent when `canonical_block_id(k)` only ever
returns a cursor whose number is `k` (the `StorageReader` contract in the
spec). -/
def canonical_numbers_ok (storage : StorageReader) : Prop :=
  ∀ k cur, storage.canonical_block_id k = .ok (some cur) → cur.number = k

lemma liftStorage_ok_iff {α : Type} {x : Except StorageErr α} {v : α} :
    liftStorage x = .ok v ↔ x = .ok v := by
  cases x <;> simp [liftStorage]

lemma lowest_cursor_number (a b : GlobalBlockId) :
    (lowest_cursor a b).number = Nat.min a.number b.number := by
  unfold lowest_cursor
  show (if a.number < b.number then a else b).number = min a.number b.number
  rw [Nat.min_def]
  split <;> split <;> first | rfl | omega

lemma get_ingestion_state_of_some (storage : StorageReader) {st : ProducerState}
    {s : IngestionState} (h : st.ingestion_state = some s) :
    get_ingestion_state storage st = .ok (s, st) := by
  unfold get_ingestion_state
  rw [h]

lemma get_ingestion_state_ok {storage : StorageReader} {st st₁ : ProducerState}
    {view : IngestionState}
    (h : get_ingestion_state storage st = .ok (view, st₁)) :
    st₁ = { st with ingestion_state := some view } ∧
    (st.ingestion_state = some view ∨
      (st.ingestion_state = none ∧ view.pending = none)) := by
  unfold get_ingestion_state at h
  cases hs : st.ingestion_state with
  | some s =>
    rw [hs] at h
    simp only [Except.ok.injEq, Prod.mk.injEq] at h
    obtain ⟨hv, hst⟩ := h
    constructor
    · rw [← hst, ← hv, ← hs]
    · exact Or.inl (by rw [hv])
  | none =>
    rw [hs] at h
    cases ha : storage.highest_accepted_block with
    | error e => rw [ha] at h; simp [liftStorage] at h
    | ok accepted =>
      rw [ha] at h
      cases hf : storage.highest_finalized_block with
      | error e => rw [hf] at h; simp [liftStorage] at h
      | ok finalized =>
        rw [hf] at h
        simp only [liftStorage, Except.ok.injEq, Prod.mk.injEq] at h
        obtain ⟨hv, hst⟩ := h
        subst hv
        constructor
        · rw [← hst]
        · exact Or.inr ⟨rfl, rfl⟩

lemma get_ingestion_state_frame {storage : StorageReader} {st st₁ : ProducerState}
    {view : IngestionState}
    (h : get_ingestion_state storage st = .ok (view, st₁)) :
    st₁.configuration = st.configuration ∧ st₁.waker = st.waker ∧
    st₁.ingestion_state = some view := by
  obtain ⟨h1, -⟩ := get_ingestion_state_ok h
  subst h1
  exact ⟨rfl, rfl, rfl⟩

lemma collect_canonical_spec (storage : StorageReader) :
    ∀ (count block_number : Nat) (cursors : List GlobalBlockId),
      collect_canonical storage block_number count = .ok cursors →
      cursors.length ≤ count ∧
      (∀ i, i < cursors.length →
        storage.canonical_block_id (block_number + i) = .ok cursors[i]?) ∧
      (cursors.length < count →
        storage.canonical_block_id (block_number + cursors.length) = .ok none) := by
  intro count
  induction count with
  | zero =>
    intro block_number cursors h
    unfold collect_canonical at h
    injection h with h1
    subst h1
    refine ⟨Nat.le_refl _, ?_, ?_⟩ <;> simp
  | succ n ih =>
    intro block_number cursors h
    unfold collect_canonical at h
    cases hc : storage.canonical_block_id block_number with
    | error e => rw [hc] at h; simp [liftStorage] at h
    | ok o =>
      rw [hc] at h
      cases o with
      | none =>
        simp only [liftStorage] at h
        injection h with h1
        subst h1
        refine ⟨by simp, by simp, ?_⟩
        intro _
        simpa using hc
      | some cursor =>
        simp only [liftStorage] at h
        cases hr : collect_canonical storage (block_number + 1) n with
        | error e => rw [hr] at h; exact absurd h (by simp)
        | ok rest =>
          rw [hr] at h
          injection h with h1
          subst h1
          obtain ⟨hlen, hget, hgap⟩ := ih (block_number + 1) rest hr
          refine ⟨by simpa using Nat.succ_le_succ hlen, ?_, ?_⟩
          · intro i hi
            cases i with
            | zero => simpa using hc
            | succ j =>
              have hj : j < rest.length := by simpa using hi
              have := hget j hj
              rw [show block_number + (j + 1) = block_number + 1 + j by omega]
              simpa using this
          · intro hlt
            have hlt' : rest.length < n := by simpa using hlt
            have := hgap hlt'
            rw [show block_number + (cursor :: rest).length = block_number + 1 + rest.length by
              simp; omega]
            simpa using this

lemma next_cursor_finalized_ok_some {storage : StorageReader} {st st' : ProducerState}
    {s : Option GlobalBlockId} {N : Nat} {f : GlobalBlockId} {b : BatchCursor}
    (h : next_cursor_finalized storage st s N f = .ok (some b, st')) :
    ∃ conf cursors,
      st.configuration = some conf ∧
      1 ≤ N + conf.batch_size ∧
      collect_canonical storage N
        (Nat.min f.number (N + conf.batch_size - 1) + 1 - N) = .ok cursors ∧
      cursors ≠ [] ∧
      b = BatchCursor.finalized s cursors ∧
      st' = { st with configuration := some { conf with current := cursors.getLast? } } := by
  unfold next_cursor_finalized at h
  cases hc : st.configuration with
  | none => rw [hc] at h; exact absurd h (by simp)
  | some conf =>
    rw [hc] at h
    try simp only [] at h
    unfold checked_sub_u64 at h
    by_cases hbs : N + conf.batch_size < 1
    · rw [if_pos hbs] at h
      try simp only [] at h
      exact absurd h (by simp)
    · rw [if_neg hbs] at h
      try simp only [] at h
      cases hcol : collect_canonical storage N
          (Nat.min f.number (N + conf.batch_size - 1) + 1 - N) with
      | error e => rw [hcol] at h; exact absurd h (by simp)
      | ok cursors =>
        rw [hcol] at h
        try simp only [] at h
        by_cases hemp : cursors.isEmpty
        · rw [if_pos hemp] at h
          exact absurd h (by simp)
        · rw [if_neg hemp] at h
          simp only [BatchCursor.end_cursor, Option.some.injEq, Except.ok.injEq, Prod.mk.injEq] at h
          obtain ⟨hb, hst⟩ := h
          exact ⟨conf, cursors, rfl, by omega,
            hcol, by simpa [List.isEmpty_iff] using hemp, hb.symm, hst.symm⟩

lemma next_cursor_finalized_ok_none {storage : StorageReader} {st st' : ProducerState}
    {s : Option GlobalBlockId} {N : Nat} {f : GlobalBlockId}
    (h : next_cursor_finalized storage st s N f = .ok (none, st')) :
    st' = st := by
  unfold next_cursor_finalized at h
  cases hc : st.configuration with
  | none => rw [hc] at h; exact absurd h (by simp)
  | some conf =>
    rw [hc] at h
    try simp only [] at h
    unfold checked_sub_u64 at h
    by_cases hbs : N + conf.batch_size < 1
    · rw [if_pos hbs] at h
      try simp only [] at h
      exact absurd h (by simp)
    · rw [if_neg hbs] at h
      try simp only [] at h
      cases hcol : collect_canonical storage N
          (Nat.min f.number (N + conf.batch_size - 1) + 1 - N) with
      | error e => rw [hcol] at h; exact absurd h (by simp)
      | ok cursors =>
        rw [hcol] at h
        try simp only [] at h
        by_cases hemp : cursors.isEmpty
        · rw [if_pos hemp] at h
          simp only [Except.ok.injEq, Prod.mk.injEq] at h
          exact h.2.symm
        · rw [if_neg hemp] at h
          exact absurd h (by simp)

lemma next_cursor_accepted_ok_some {storage : StorageReader} {st st' : ProducerState}
    {s : Option GlobalBlockId} {N : Nat} {b : BatchCursor}
    (h : next_cursor_accepted storage st s N = .ok (some b, st')) :
    ∃ conf cursor,
      st.configuration = some conf ∧
      conf.data_finality ≠ DataFinality.dataStatusFinalized ∧
      conf.data_finality ≠ DataFinality.dataStatusUnknown ∧
      storage.canonical_block_id N = .ok (some cursor) ∧
      b = BatchCursor.accepted s cursor ∧
      st' = { st with configuration := some { conf with current := some cursor } } := by
  unfold next_cursor_accepted at h
  cases hc : st.configuration with
  | none => rw [hc] at h; exact absurd h (by simp)
  | some conf =>
    rw [hc] at h
    try simp only [] at h
    by_cases hfin : conf.data_finality = DataFinality.dataStatusFinalized ∨
        conf.data_finality = DataFinality.dataStatusUnknown
    · rw [if_pos hfin] at h
      try simp only [] at h
      exact absurd h (by simp)
    · rw [if_neg hfin] at h
      try simp only [] at h
      push_neg at hfin
      cases hcan : storage.canonical_block_id N with
      | error e => rw [hcan] at h; simp [liftStorage] at h
      | ok o =>
        rw [hcan] at h
        cases o with
        | none => simp [liftStorage] at h
        | some cursor =>
          simp only [liftStorage, BatchCursor.end_cursor, Option.some.injEq,
            Except.ok.injEq, Prod.mk.injEq] at h
          obtain ⟨hb, hst⟩ := h
          exact ⟨conf, cursor, rfl, hfin.1, hfin.2, rfl, hb.symm, hst.symm⟩

lemma next_cursor_accepted_ok_none {storage : StorageReader} {st st' : ProducerState}
    {s : Option GlobalBlockId} {N : Nat}
    (h : next_cursor_accepted storage st s N = .ok (none, st')) :
    st' = st := by
  unfold next_cursor_accepted at h
  cases hc : st.configuration with
  | none => rw [hc] at h; exact absurd h (by simp)
  | some conf =>
    rw [hc] at h
    try simp only [] at h
    by_cases hfin : conf.data_finality = DataFinality.dataStatusFinalized ∨
        conf.data_finality = DataFinality.dataStatusUnknown
    · rw [if_pos hfin] at h
      try simp only [] at h
      simp only [Except.ok.injEq, Prod.mk.injEq] at h
      exact h.2.symm
    · rw [if_neg hfin] at h
      try simp only [] at h
      cases hcan : storage.canonical_block_id N with
      | error e => rw [hcan] at h; simp [liftStorage] at h
      | ok o =>
        rw [hcan] at h
        cases o with
        | none =>
          simp only [liftStorage, Except.ok.injEq, Prod.mk.injEq] at h
          exact h.2.symm
        | some cursor =>
          exact absurd h (by simp [liftStorage])

lemma next_cursor_pending_ok_some {storage : StorageReader} {st st' : ProducerState}
    {s : Option GlobalBlockId} {N : Nat} {b : BatchCursor}
    (h : next_cursor_pending storage st s N = .ok (some b, st')) :
    ∃ conf cursor,
      st.configuration = some conf ∧
      conf.data_finality = DataFinality.dataStatusPending ∧
      conf.pending_sent = false ∧
      storage.canonical_block_id N = .ok (some cursor) ∧
      b = BatchCursor.pending s cursor ∧
      st' = { st with configuration := some { conf with pending_sent := true } } := by
  unfold next_cursor_pending at h
  cases hc : st.configuration with
  | none => rw [hc] at h; exact absurd h (by simp)
  | some conf =>
    rw [hc] at h
    try simp only [] at h
    by_cases hcond : conf.data_finality ≠ DataFinality.dataStatusPending ∨
        conf.pending_sent = true
    · rw [if_pos hcond] at h
      try simp only [] at h
      exact absurd h (by simp)
    · rw [if_neg hcond] at h
      try simp only [] at h
      push_neg at hcond
      cases hcan : storage.canonical_block_id N with
      | error e => rw [hcan] at h; simp [liftStorage] at h
      | ok o =>
        rw [hcan] at h
        cases o with
        | none => simp [liftStorage] at h
        | some cursor =>
          simp only [liftStorage, Option.some.injEq, Except.ok.injEq, Prod.mk.injEq] at h
          obtain ⟨hb, hst⟩ := h
          refine ⟨conf, cursor, rfl, hcond.1, ?_, rfl, hb.symm, hst.symm⟩
          simpa using hcond.2

lemma next_cursor_pending_ok_none {storage : StorageReader} {st st' : ProducerState}
    {s : Option GlobalBlockId} {N : Nat}
    (h : next_cursor_pending storage st s N = .ok (none, st')) :
    st' = st := by
  unfold next_cursor_pending at h
  cases hc : st.configuration with
  | none => rw [hc] at h; exact absurd h (by simp)
  | some conf =>
    rw [hc] at h
    try simp only [] at h
    by_cases hcond : conf.data_finality ≠ DataFinality.dataStatusPending ∨
        conf.pending_sent = true
    · rw [if_pos hcond] at h
      try simp only [] at h
      simp only [Except.ok.injEq, Prod.mk.injEq] at h
      exact h.2.symm
    · rw [if_neg hcond] at h
      try simp only [] at h
      cases hcan : storage.canonical_block_id N with
      | error e => rw [hcan] at h; simp [liftStorage] at h
      | ok o =>
        rw [hcan] at h
        cases o with
        | none =>
          simp only [liftStorage, Except.ok.injEq, Prod.mk.injEq] at h
          exact h.2.symm
        | some cursor =>
          exact absurd h (by simp [liftStorage])

lemma next_cursor_try_pending_ok_some {storage : StorageReader} {st st' : ProducerState}
    {view : IngestionState} {s : Option GlobalBlockId} {N : Nat} {b : BatchCursor}
    (h : next_cursor_try_pending storage st view s N = .ok (some b, st')) :
    ∃ p, view.pending = some p ∧ N ≤ p.number ∧
      next_cursor_pending storage st s N = .ok (some b, st') := by
  unfold next_cursor_try_pending at h
  cases hp : view.pending with
  | none => rw [hp] at h; exact absurd h (by simp)
  | some p =>
    rw [hp] at h
    try simp only [] at h
    by_cases hn : N ≤ p.number
    · rw [if_pos hn] at h
      exact ⟨p, rfl, hn, h⟩
    · rw [if_neg hn] at h
      exact absurd h (by simp)

lemma next_cursor_try_pending_ok_none {storage : StorageReader} {st st' : ProducerState}
    {view : IngestionState} {s : Option GlobalBlockId} {N : Nat}
    (h : next_cursor_try_pending storage st view s N = .ok (none, st')) :
    st' = st := by
  unfold next_cursor_try_pending at h
  cases hp : view.pending with
  | none =>
    rw [hp] at h
    simp only [Except.ok.injEq, Prod.mk.injEq] at h
    exact h.2.symm
  | some p =>
    rw [hp] at h
    try simp only [] at h
    by_cases hn : N ≤ p.number
    · rw [if_pos hn] at h
      exact next_cursor_pending_ok_none h
    · rw [if_neg hn] at h
      simp only [Except.ok.injEq, Prod.mk.injEq] at h
      exact h.2.symm

lemma next_cursor_try_accepted_ok_some {storage : StorageReader} {st st' : ProducerState}
    {view : IngestionState} {s : Option GlobalBlockId} {N : Nat} {b : BatchCursor}
    (h : next_cursor_try_accepted storage st view s N = .ok (some b, st')) :
    next_cursor_accepted storage st s N = .ok (some b, st') ∨
    (∃ p, view.pending = some p ∧ N ≤ p.number ∧
      next_cursor_pending storage st s N = .ok (some b, st')) := by
  unfold next_cursor_try_accepted at h
  cases ha : view.accepted with
  | none =>
    rw [ha] at h
    exact Or.inr (next_cursor_try_pending_ok_some h)
  | some a =>
    rw [ha] at h
    try simp only [] at h
    by_cases hn : N ≤ a.number
    · rw [if_pos hn] at h
      exact Or.inl h
    · rw [if_neg hn] at h
      exact Or.inr (next_cursor_try_pending_ok_some h)

lemma next_cursor_try_accepted_ok_none {storage : StorageReader} {st st' : ProducerState}
    {view : IngestionState} {s : Option GlobalBlockId} {N : Nat}
    (h : next_cursor_try_accepted storage st view s N = .ok (none, st')) :
    st' = st := by
  unfold next_cursor_try_accepted at h
  cases ha : view.accepted with
  | none =>
    rw [ha] at h
    exact next_cursor_try_pending_ok_none h
  | some a =>
    rw [ha] at h
    try simp only [] at h
    by_cases hn : N ≤ a.number
    · rw [if_pos hn] at h
      exact next_cursor_accepted_ok_none h
    · rw [if_neg hn] at h
      exact next_cursor_try_pending_ok_none h

lemma next_cursor_ok_some {storage : StorageReader} {st st' : ProducerState}
    {b : BatchCursor}
    (h : next_cursor storage st = .ok (some b, st')) :
    ∃ view conf,
      get_ingestion_state storage st = .ok (view, { st with ingestion_state := some view }) ∧
      st.configuration = some conf ∧
      ((∃ f, view.finalized = some f ∧
          next_block_number_of conf.current ≤ f.number ∧
          next_cursor_finalized storage { st with ingestion_state := some view }
            conf.current (next_block_number_of conf.current) f = .ok (some b, st')) ∨
       next_cursor_accepted storage { st with ingestion_state := some view }
          conf.current (next_block_number_of conf.current) = .ok (some b, st') ∨
       (∃ p, view.pending = some p ∧
          next_block_number_of conf.current ≤ p.number ∧
          next_cursor_pending storage { st with ingestion_state := some view }
            conf.current (next_block_number_of conf.current) = .ok (some b, st'))) := by
  unfold next_cursor at h
  by_cases hcs : st.configuration.isSome
  · rw [if_pos hcs] at h
    unfold next_cursor_with_configuration at h
    cases hgis : get_ingestion_state storage st with
    | error e => rw [hgis] at h; exact absurd h (by simp)
    | ok pair =>
      obtain ⟨view, st₁⟩ := pair
      rw [hgis] at h
      try simp only [] at h
      obtain ⟨hst₁, -⟩ := get_ingestion_state_ok hgis
      subst hst₁
      cases hconf : st.configuration with
      | none => simp [hconf] at hcs
      | some conf =>
        have hconf₁ :
            ({ st with ingestion_state := some view } : ProducerState).configuration
              = some conf := hconf
        rw [hconf₁] at h
        try simp only [] at h
        refine ⟨view, conf, by rw [← hconf]; try exact hgis, rfl, ?_⟩
        cases hfin : view.finalized with
        | some f =>
          rw [hfin] at h
          try simp only [] at h
          by_cases hn : next_block_number_of conf.current ≤ f.number
          · rw [if_pos hn] at h
            exact Or.inl ⟨f, rfl, hn, h⟩
          · rw [if_neg hn] at h
            rcases next_cursor_try_accepted_ok_some h with h2 | ⟨p, hp, hnp, h2⟩
            · exact Or.inr (Or.inl h2)
            · exact Or.inr (Or.inr ⟨p, hp, hnp, h2⟩)
        | none =>
          rw [hfin] at h
          try simp only [] at h
          rcases next_cursor_try_accepted_ok_some h with h2 | ⟨p, hp, hnp, h2⟩
          · exact Or.inr (Or.inl h2)
          · exact Or.inr (Or.inr ⟨p, hp, hnp, h2⟩)
  · rw [if_neg hcs] at h
    exact absurd h (by simp)

lemma next_cursor_ok_none {storage : StorageReader} {st st' : ProducerState}
    (h : next_cursor storage st = .ok (none, st')) :
    st'.configuration = st.configuration ∧ st'.waker = st.waker := by
  unfold next_cursor at h
  by_cases hcs : st.configuration.isSome
  · rw [if_pos hcs] at h
    unfold next_cursor_with_configuration at h
    cases hgis : get_ingestion_state storage st with
    | error e => rw [hgis] at h; exact absurd h (by simp)
    | ok pair =>
      obtain ⟨view, st₁⟩ := pair
      rw [hgis] at h
      try simp only [] at h
      obtain ⟨hst₁, -⟩ := get_ingestion_state_ok hgis
      subst hst₁
      cases hconf : st.configuration with
      | none => simp [hconf] at hcs
      | some conf =>
        have hconf₁ :
            ({ st with ingestion_state := some view } : ProducerState).configuration
              = some conf := hconf
        rw [hconf₁] at h
        try simp only [] at h
        have hout : st' = { configuration := some conf, ingestion_state := some view, waker := st.waker } → st'.configuration = some conf ∧ st'.waker = st.waker := by
          intro he
          subst he
          exact ⟨rfl, rfl⟩
        cases hfin : view.finalized with
        | some f =>
          rw [hfin] at h
          try simp only [] at h
          by_cases hn : next_block_number_of conf.current ≤ f.number
          · rw [if_pos hn] at h
            exact hout (next_cursor_finalized_ok_none h)
          · rw [if_neg hn] at h
            exact hout (next_cursor_try_accepted_ok_none h)
        | none =>
          rw [hfin] at h
          try simp only [] at h
          exact hout (next_cursor_try_accepted_ok_none h)
  · rw [if_neg hcs] at h
    simp only [Except.ok.injEq, Prod.mk.injEq] at h
    rw [← h.2]
    exact ⟨rfl, rfl⟩

/-- Whether an incoming invalidation at `c` affects already-delivered data:
`current.number > c.number` at the moment of the event. -/
def invalidated_by (st : ProducerState) (c : GlobalBlockId) : Bool :=
  match st.configuration with
  | some conf => (conf.current.map (fun (x : GlobalBlockId) => decide (c.number < x.number))).getD false
  | none => false

lemma invalidated_by_iff (st : ProducerState) (c : GlobalBlockId) :
    invalidated_by st c = true ↔
    ∃ conf cur, st.configuration = some conf ∧ conf.current = some cur ∧
      c.number < cur.number := by
  unfold invalidated_by
  cases hconf : st.configuration with
  | none => simp
  | some conf =>
    cases hcur : conf.current with
    | none => simp [hcur]
    | some cur => simp [hcur]

lemma wake_eq (st : ProducerState) :
    wake st = ({ st with waker := false }, if st.waker then 1 else 0) := by
  unfold wake
  by_cases hw : st.waker
  · rw [if_pos hw, if_pos hw]
  · rw [if_neg hw, if_neg hw]
    have hwf : st.waker = false := by simpa using hw
    cases st
    simp_all

lemma handle_invalidate_ok {storage : StorageReader} {st st' : ProducerState}
    {c : GlobalBlockId} {r : IngestionResponse} {n : Nat}
    (h : handle_ingestion_message storage st (.invalidate c) = .ok (r, st', n)) :
    r = (if invalidated_by st c then IngestionResponse.invalidate c else IngestionResponse.ok) ∧
    n = (if st.waker then 1 else 0) ∧
    st'.waker = false ∧
    st'.configuration = st.configuration.map
      (fun (conf : BatchConfiguration) =>
        { conf with current := conf.current.map (fun (x : GlobalBlockId) => lowest_cursor x c) }) ∧
    ∃ view,
      get_ingestion_state storage st = .ok (view, { st with ingestion_state := some view }) ∧
      st'.ingestion_state = some
        { finalized := view.finalized.map (fun (x : GlobalBlockId) => lowest_cursor x c),
          accepted := view.accepted.map (fun (x : GlobalBlockId) => lowest_cursor x c),
          pending := none } := by
  unfold handle_ingestion_message at h
  cases hgis : get_ingestion_state storage st with
  | error e => rw [hgis] at h; exact absurd h (by simp)
  | ok pair =>
    obtain ⟨view, st₁⟩ := pair
    rw [hgis] at h
    obtain ⟨hst₁, -⟩ := get_ingestion_state_ok hgis
    subst hst₁
    try simp only [] at h
    unfold invalidated_by
    cases hconf : st.configuration with
    | none =>
      rw [hconf] at h hgis
      try simp only [] at h
      rw [wake_eq] at h
      try simp only [] at h
      simp only [Except.ok.injEq, Prod.mk.injEq] at h
      obtain ⟨hr, hst, hn⟩ := h
      refine ⟨by first | (rw [← hr]; simp) | rw [← hr],
        by first | (rw [← hn]; simp) | rw [← hn],
        by first | (rw [← hst]; simp) | rw [← hst],
        by first | (rw [← hst]; simp) | rw [← hst],
        view, rfl,
        by first | (rw [← hst]; simp) | rw [← hst]⟩
    | some conf =>
      rw [hconf] at h hgis
      try simp only [] at h
      rw [wake_eq] at h
      try simp only [] at h
      simp only [Except.ok.injEq, Prod.mk.injEq] at h
      obtain ⟨hr, hst, hn⟩ := h
      refine ⟨by first | (rw [← hr]; simp) | rw [← hr],
        by first | (rw [← hn]; simp) | rw [← hn],
        by first | (rw [← hst]; simp) | rw [← hst],
        by first | (rw [← hst]; simp) | rw [← hst],
        view, rfl,
        by first | (rw [← hst]; simp) | rw [← hst]⟩

lemma handle_pending_ok {storage : StorageReader} {st st' : ProducerState}
    {c : GlobalBlockId} {r : IngestionResponse} {n : Nat}
    (h : handle_ingestion_message storage st (.pending c) = .ok (r, st', n)) :
    r = IngestionResponse.ok ∧
    n = (if st.waker then 1 else 0) ∧
    st'.waker = false ∧
    st'.configuration = st.configuration.map set_pending_not_sent ∧
    ∃ view,
      get_ingestion_state storage st = .ok (view, { st with ingestion_state := some view }) ∧
      st'.ingestion_state = some { view with pending := some c } := by
  unfold handle_ingestion_message at h
  cases hgis : get_ingestion_state storage st with
  | error e => rw [hgis] at h; exact absurd h (by simp)
  | ok pair =>
    obtain ⟨view, st₁⟩ := pair
    rw [hgis] at h
    obtain ⟨hst₁, -⟩ := get_ingestion_state_ok hgis
    subst hst₁
    try simp only [] at h
    rw [wake_eq] at h
    try simp only [] at h
    simp only [Except.ok.injEq, Prod.mk.injEq] at h
    obtain ⟨hr, hst, hn⟩ := h
    refine ⟨by first | (rw [← hr]; simp) | rw [← hr],
      by first | (rw [← hn]; simp) | rw [← hn],
      by first | (rw [← hst]; simp) | rw [← hst],
      by first | (rw [← hst]; simp) | rw [← hst],
      view, rfl,
      by first | (rw [← hst]; simp) | rw [← hst]⟩

lemma handle_accepted_ok {storage : StorageReader} {st st' : ProducerState}
    {c : GlobalBlockId} {r : IngestionResponse} {n : Nat}
    (h : handle_ingestion_message storage st (.accepted c) = .ok (r, st', n)) :
    r = IngestionResponse.ok ∧
    n = (if st.waker then 1 else 0) ∧
    st'.waker = false ∧
    st'.configuration = st.configuration ∧
    ∃ view,
      get_ingestion_state storage st = .ok (view, { st with ingestion_state := some view }) ∧
      st'.ingestion_state = some { view with finalized := none, accepted := some c } := by
  unfold handle_ingestion_message at h
  cases hgis : get_ingestion_state storage st with
  | error e => rw [hgis] at h; exact absurd h (by simp)
  | ok pair =>
    obtain ⟨view, st₁⟩ := pair
    rw [hgis] at h
    obtain ⟨hst₁, -⟩ := get_ingestion_state_ok hgis
    subst hst₁
    try simp only [] at h
    rw [wake_eq] at h
    try simp only [] at h
    simp only [Except.ok.injEq, Prod.mk.injEq] at h
    obtain ⟨hr, hst, hn⟩ := h
    refine ⟨by first | (rw [← hr]; simp) | rw [← hr],
      by first | (rw [← hn]; simp) | rw [← hn],
      by first | (rw [← hst]; simp) | rw [← hst],
      by first | (rw [← hst]; simp) | rw [← hst],
      view, rfl,
      by first | (rw [← hst]; simp) | rw [← hst]⟩

lemma handle_finalized_ok {storage : StorageReader} {st st' : ProducerState}
    {c : GlobalBlockId} {r : IngestionResponse} {n : Nat}
    (h : handle_ingestion_message storage st (.finalized c) = .ok (r, st', n)) :
    r = IngestionResponse.ok ∧
    n = (if st.waker then 1 else 0) ∧
    st'.waker = false ∧
    st'.configuration = st.configuration ∧
    ∃ view,
      get_ingestion_state storage st = .ok (view, { st with ingestion_state := some view }) ∧
      st'.ingestion_state = some { view with finalized := some c } := by
  unfold handle_ingestion_message at h
  cases hgis : get_ingestion_state storage st with
  | error e => rw [hgis] at h; exact absurd h (by simp)
  | ok pair =>
    obtain ⟨view, st₁⟩ := pair
    rw [hgis] at h
    obtain ⟨hst₁, -⟩ := get_ingestion_state_ok hgis
    subst hst₁
    try simp only [] at h
    rw [wake_eq] at h
    try simp only [] at h
    simp only [Except.ok.injEq, Prod.mk.injEq] at h
    obtain ⟨hr, hst, hn⟩ := h
    refine ⟨by first | (rw [← hr]; simp) | rw [← hr],
      by first | (rw [← hn]; simp) | rw [← hn],
      by first | (rw [← hst]; simp) | rw [← hst],
      by first | (rw [← hst]; simp) | rw [← hst],
      view, rfl,
      by first | (rw [← hst]; simp) | rw [← hst]⟩

lemma state_eta_of_view {st : ProducerState} {view : IngestionState}
    (h : st.ingestion_state = some view) :
    ({ st with ingestion_state := some view } : ProducerState) = st := by
  cases st
  simp_all

lemma reconfigure_finish_eq (response : ReconfigureResponse)
    (current : Option GlobalBlockId) (cfg : StreamConfiguration)
    (st : ProducerState) :
    reconfigure_finish response current cfg st =
      .ok (response, { configuration := some { current := current, pending_sent := false, data_finality := cfg.finality, batch_size := cfg.batch_size }, ingestion_state := st.ingestion_state, waker := false }, if st.waker then 1 else 0) := by
  unfold reconfigure_finish
  simp only [wake_eq]
  try rfl

lemma reconfigure_resolved_ok_cases {storage : StorageReader}
    {cfg : StreamConfiguration} {st st' : ProducerState} {sc : GlobalBlockId}
    {r : ReconfigureResponse} {n : Nat}
    (h : reconfigure_resolved storage cfg st sc = .ok (r, st', n)) :
    (r = ReconfigureResponse.missingStartingCursor ∧ st' = st ∧ n = 0) ∨
    (n = (if st.waker then 1 else 0) ∧
      ∃ current, st' = { configuration := some { current := current, pending_sent := false, data_finality := cfg.finality, batch_size := cfg.batch_size }, ingestion_state := st.ingestion_state, waker := false } ∧
        ((r = ReconfigureResponse.ok ∧ current = some sc) ∨
         (∃ c, r = ReconfigureResponse.invalidate c ∧ current = some c))) := by
  unfold reconfigure_resolved at h
  cases hrs : storage.read_status sc with
  | error e => rw [hrs] at h; simp [liftStorage] at h
  | ok o =>
    rw [hrs] at h
    cases o with
    | none =>
      simp only [liftStorage, Except.ok.injEq, Prod.mk.injEq] at h
      obtain ⟨hr, hst, hn⟩ := h
      exact Or.inl ⟨hr.symm, hst.symm, hn.symm⟩
    | some status =>
      simp only [liftStorage] at h
      by_cases hacc : (status.is_accepted || status.is_finalized) = true
      · rw [if_pos hacc] at h
        rw [reconfigure_finish_eq] at h
        simp only [Except.ok.injEq, Prod.mk.injEq] at h
        obtain ⟨hr, hst, hn⟩ := h
        exact Or.inr ⟨hn.symm, some sc, hst.symm, Or.inl ⟨hr.symm, rfl⟩⟩
      · rw [if_neg hacc] at h
        try simp only [] at h
        cases hwb : walk_back storage (sc.number + 1) sc with
        | error e => rw [hwb] at h; exact absurd h (by simp)
        | ok o2 =>
          rw [hwb] at h
          cases o2 with
          | none =>
            simp only [Except.ok.injEq, Prod.mk.injEq] at h
            obtain ⟨hr, hst, hn⟩ := h
            exact Or.inl ⟨hr.symm, hst.symm, hn.symm⟩
          | some new_root =>
            try simp only [] at h
            rw [reconfigure_finish_eq] at h
            simp only [Except.ok.injEq, Prod.mk.injEq] at h
            obtain ⟨hr, hst, hn⟩ := h
            exact Or.inr ⟨hn.symm, some new_root, hst.symm,
              Or.inr ⟨new_root, hr.symm, rfl⟩⟩

lemma reconfigure_ok_cases {storage : StorageReader}
    {cfg : StreamConfiguration} {st st' : ProducerState}
    {r : ReconfigureResponse} {n : Nat}
    (h : reconfigure storage cfg st = .ok (r, st', n)) :
    (r = ReconfigureResponse.missingStartingCursor ∧ st' = st ∧ n = 0) ∨
    (n = (if st.waker then 1 else 0) ∧
      ∃ current, st' = { configuration := some { current := current, pending_sent := false, data_finality := cfg.finality, batch_size := cfg.batch_size }, ingestion_state := st.ingestion_state, waker := false } ∧
        (r = ReconfigureResponse.ok ∨
         (∃ c, r = ReconfigureResponse.invalidate c ∧ current = some c))) := by
  unfold reconfigure at h
  cases hsc : cfg.starting_cursor with
  | none =>
    rw [hsc] at h
    rw [reconfigure_finish_eq] at h
    simp only [Except.ok.injEq, Prod.mk.injEq] at h
    obtain ⟨hr, hst, hn⟩ := h
    exact Or.inr ⟨hn.symm, none, hst.symm, Or.inl hr.symm⟩
  | some sc =>
    rw [hsc] at h
    try simp only [] at h
    by_cases h0 : sc.hash = 0
    · rw [if_pos h0] at h
      cases hcan : storage.canonical_block_id sc.number with
      | error e => rw [hcan] at h; simp [liftStorage] at h
      | ok o =>
        rw [hcan] at h
        cases o with
        | none =>
          simp only [liftStorage, Except.ok.injEq, Prod.mk.injEq] at h
          obtain ⟨hr, hst, hn⟩ := h
          exact Or.inl ⟨hr.symm, hst.symm, hn.symm⟩
        | some resolved =>
          simp only [liftStorage] at h
          rcases reconfigure_resolved_ok_cases h with h1 | ⟨hn, current, hst, h2⟩
          · exact Or.inl h1
          · refine Or.inr ⟨hn, current, hst, ?_⟩
            rcases h2 with ⟨hr, -⟩ | h2
            · exact Or.inl hr
            · exact Or.inr h2
    · rw [if_neg h0] at h
      rcases reconfigure_resolved_ok_cases h with h1 | ⟨hn, current, hst, h2⟩
      · exact Or.inl h1
      · refine Or.inr ⟨hn, current, hst, ?_⟩
        rcases h2 with ⟨hr, -⟩ | h2
        · exact Or.inl hr
        · exact Or.inr h2

lemma walk_back_reaches {storage : StorageReader} :
    ∀ (k : Nat) (a : Nat → GlobalBlockId),
      (∀ i, i < k → ∃ s h, storage.read_status (a i) = .ok (some s) ∧
        (s.is_accepted || s.is_finalized) = false ∧
        storage.read_header (a i) = .ok (some h) ∧
        from_block_header_parent h = a (i + 1)) →
      (∃ s, storage.read_status (a k) = .ok (some s) ∧
        (s.is_accepted || s.is_finalized) = true) →
      ∀ fuel, k < fuel → walk_back storage fuel (a 0) = .ok (some (a k)) := by
  intro k
  induction k with
  | zero =>
    intro a hstep hk fuel hfuel
    obtain ⟨s, hs, hacc⟩ := hk
    cases fuel with
    | zero => omega
    | succ m =>
      unfold walk_back
      rw [hs]
      simp [liftStorage, hacc]
  | succ j ih =>
    intro a hstep hk fuel hfuel
    cases fuel with
    | zero => omega
    | succ m =>
      obtain ⟨s0, h0, hs0, hnacc, hh0, hpar⟩ := hstep 0 (Nat.succ_pos j)
      unfold walk_back
      rw [hs0]
      simp only [liftStorage]
      try simp only []
      rw [if_neg (by simp [hnacc])]
      rw [hh0]
      try simp only []
      rw [hpar]
      exact ih (fun i => a (i + 1))
        (fun i hi => hstep (i + 1) (Nat.succ_lt_succ hi)) hk m (by omega)

lemma walk_back_missing {storage : StorageReader} :
    ∀ (j : Nat) (a : Nat → GlobalBlockId),
      (∀ i, i < j → ∃ s h, storage.read_status (a i) = .ok (some s) ∧
        (s.is_accepted || s.is_finalized) = false ∧
        storage.read_header (a i) = .ok (some h) ∧
        from_block_header_parent h = a (i + 1)) →
      (storage.read_status (a j) = .ok none ∨
        (∃ s, storage.read_status (a j) = .ok (some s) ∧
          (s.is_accepted || s.is_finalized) = false ∧
          storage.read_header (a j) = .ok none)) →
      ∀ fuel, j < fuel → walk_back storage fuel (a 0) = .ok none := by
  intro j
  induction j with
  | zero =>
    intro a hstep hj fuel hfuel
    cases fuel with
    | zero => omega
    | succ m =>
      unfold walk_back
      rcases hj with hnone | ⟨s, hs, hnacc, hhdr⟩
      · rw [hnone]
        simp [liftStorage]
      · rw [hs]
        simp only [liftStorage]
        try simp only []
        rw [if_neg (by simp [hnacc])]
        rw [hhdr]
        try simp [liftStorage]
  | succ j ih =>
    intro a hstep hj fuel hfuel
    cases fuel with
    | zero => omega
    | succ m =>
      obtain ⟨s0, h0, hs0, hnacc, hh0, hpar⟩ := hstep 0 (Nat.succ_pos j)
      unfold walk_back
      rw [hs0]
      simp only [liftStorage]
      try simp only []
      rw [if_neg (by simp [hnacc])]
      rw [hh0]
      try simp only []
      rw [hpar]
      exact ih (fun i => a (i + 1))
        (fun i hi => hstep (i + 1) (Nat.succ_lt_succ hi)) hj m (by omega)

lemma chain_number_le {a : Nat → GlobalBlockId} :
    ∀ k : Nat, (∀ i, i < k → (a (i + 1)).number < (a i).number) →
      (a k).number + k ≤ (a 0).number := by
  intro k
  induction k with
  | zero => intro _; omega
  | succ j ih =>
    intro hdec
    have h1 := hdec j (Nat.lt_succ_self j)
    have h2 := ih (fun i hi => hdec i (Nat.lt_succ_of_lt hi))
    omega

lemma collect_mem_number {storage : StorageReader} (hwf : canonical_numbers_ok storage)
    {N count : Nat} {cursors : List GlobalBlockId}
    (hcol : collect_canonical storage N count = .ok cursors) :
    ∀ x ∈ cursors, N ≤ x.number := by
  intro x hx
  obtain ⟨i, hi, hxi⟩ := List.mem_iff_getElem.mp hx
  obtain ⟨-, hget, -⟩ := collect_canonical_spec storage count N cursors hcol
  have hg := hget i hi
  rw [List.getElem?_eq_getElem hi] at hg
  have hnum := hwf (N + i) (cursors[i]) hg
  rw [hxi] at hnum
  omega

lemma getLast?_spec {l : List GlobalBlockId} (h : l ≠ []) :
    ∃ x, l.getLast? = some x ∧ x ∈ l := by
  have hlen : 0 < l.length := List.length_pos.mpr h
  have hidx : l.length - 1 < l.length := by omega
  refine ⟨l[l.length - 1], ?_, List.getElem_mem hidx⟩
  rw [List.getLast?_eq_getElem?, List.getElem?_eq_getElem hidx]

/-- The invalidation window predicate: the producer has a configuration whose
current cursor sits at or above `c`. -/
def current_at_least (c : GlobalBlockId) (st : ProducerState) : Prop :=
  ∃ conf cur, st.configuration = some conf ∧ conf.current = some cur ∧
    c.number ≤ cur.number

lemma next_cursor_emission {storage : StorageReader} (hwf : canonical_numbers_ok storage)
    {st st' : ProducerState} {b : BatchCursor}
    (h : next_cursor storage st = .ok (some b, st'))
    {conf : BatchConfiguration} (hconf : st.configuration = some conf) :
    (∀ x ∈ b.payload_cursors, next_block_number_of conf.current ≤ x.number) ∧
    (∃ conf', st'.configuration = some conf' ∧
      (conf'.current = conf.current ∨
        ∃ cur', conf'.current = some cur' ∧
          next_block_number_of conf.current ≤ cur'.number)) := by
  obtain ⟨view, conf₁, hgis, hconf₁, hcases⟩ := next_cursor_ok_some h
  have hcc : conf₁ = conf := by
    rw [hconf] at hconf₁
    exact (Option.some.inj hconf₁).symm
  subst hcc
  rcases hcases with ⟨f, hf, hn, hfin⟩ | hacc | ⟨p, hp, hnp, hpend⟩
  · obtain ⟨conf₂, cursors, hconf₂, hbs, hcol, hne, hb, hst'⟩ :=
      next_cursor_finalized_ok_some hfin
    have hcc₂ : conf₂ = conf₁ := by
      have : ({ st with ingestion_state := some view } : ProducerState).configuration
          = st.configuration := rfl
      rw [this, hconf] at hconf₂
      exact (Option.some.inj hconf₂).symm
    subst hcc₂
    have hmem := collect_mem_number hwf hcol
    constructor
    · intro x hx
      rw [hb] at hx
      exact hmem x hx
    · obtain ⟨last, hlast, hlastmem⟩ := getLast?_spec hne
      refine ⟨{ conf₂ with current := cursors.getLast? }, by rw [hst'], Or.inr ⟨last, ?_, hmem last hlastmem⟩⟩
      simpa using hlast
  · obtain ⟨conf₂, cursor, hconf₂, -, -, hcan, hb, hst'⟩ :=
      next_cursor_accepted_ok_some hacc
    have hcc₂ : conf₂ = conf₁ := by
      have : ({ st with ingestion_state := some view } : ProducerState).configuration
          = st.configuration := rfl
      rw [this, hconf] at hconf₂
      exact (Option.some.inj hconf₂).symm
    subst hcc₂
    have hnum := hwf _ _ hcan
    constructor
    · intro x hx
      rw [hb] at hx
      simp only [BatchCursor.payload_cursors, List.mem_singleton] at hx
      subst hx
      omega
    · exact ⟨{ conf₂ with current := some cursor }, by rw [hst'],
        Or.inr ⟨cursor, rfl, by omega⟩⟩
  · obtain ⟨conf₂, cursor, hconf₂, -, -, hcan, hb, hst'⟩ :=
      next_cursor_pending_ok_some hpend
    have hcc₂ : conf₂ = conf₁ := by
      have : ({ st with ingestion_state := some view } : ProducerState).configuration
          = st.configuration := rfl
      rw [this, hconf] at hconf₂
      exact (Option.some.inj hconf₂).symm
    subst hcc₂
    have hnum := hwf _ _ hcan
    constructor
    · intro x hx
      rw [hb] at hx
      simp only [BatchCursor.payload_cursors, List.mem_singleton] at hx
      subst hx
      omega
    · exact ⟨{ conf₂ with pending_sent := true }, by rw [hst'], Or.inl rfl⟩

lemma step_preserves_window {storage : StorageReader} (hwf : canonical_numbers_ok storage)
    {st st' : ProducerState} {op : Op} {out : Output} {c : GlobalBlockId}
    (hstep : step_op storage st op = .ok (out, st'))
    (hnr : op.is_reconfig = false)
    (hni : out.invalidation = none)
    (hw : current_at_least c st) :
    current_at_least c st' ∧ ∀ x ∈ out.payload_cursors, c.number < x.number := by
  obtain ⟨conf, cur, hconf, hcur, hle⟩ := hw
  cases op with
  | reconfig cfg => simp [Op.is_reconfig] at hnr
  | ingest msg =>
    unfold step_op at hstep
    try simp only [] at hstep
    cases hh : handle_ingestion_message storage st msg with
    | error e => rw [hh] at hstep; exact absurd hstep (by simp)
    | ok triple =>
      obtain ⟨r, st₂, n⟩ := triple
      rw [hh] at hstep
      simp only [Except.ok.injEq, Prod.mk.injEq] at hstep
      obtain ⟨hout, hst2⟩ := hstep
      have hpay : out.payload_cursors = [] := by
        rw [← hout]
        rfl
      refine ⟨?_, by simp [hpay]⟩
      cases msg with
      | pending c0 =>
        obtain ⟨-, -, -, hcfg, -⟩ := handle_pending_ok hh
        rw [hst2] at hcfg
        refine ⟨set_pending_not_sent conf, cur, ?_, hcur, hle⟩
        rw [hcfg, hconf]
        rfl
      | accepted c0 =>
        obtain ⟨-, -, -, hcfg, -⟩ := handle_accepted_ok hh
        rw [hst2] at hcfg
        exact ⟨conf, cur, by rw [hcfg, hconf], hcur, hle⟩
      | finalized c0 =>
        obtain ⟨-, -, -, hcfg, -⟩ := handle_finalized_ok hh
        rw [hst2] at hcfg
        exact ⟨conf, cur, by rw [hcfg, hconf], hcur, hle⟩
      | invalidate c0 =>
        obtain ⟨hr, -, -, hcfg, -⟩ := handle_invalidate_ok hh
        rw [hst2] at hcfg
        have hninv : invalidated_by st c0 = false := by
          by_contra hb
          have hb' : invalidated_by st c0 = true := by
            cases hbv : invalidated_by st c0
            · exact absurd hbv hb
            · rfl
          rw [hb'] at hr
          simp only [if_pos] at hr
          rw [hr] at hout
          rw [← hout] at hni
          simp [Output.invalidation] at hni
        have hcle : cur.number ≤ c0.number := by
          by_contra hgt
          have : invalidated_by st c0 = true :=
            (invalidated_by_iff st c0).mpr ⟨conf, cur, hconf, hcur, by omega⟩
          rw [this] at hninv
          exact absurd hninv (by simp)
        refine ⟨{ conf with current := conf.current.map (fun (x : GlobalBlockId) => lowest_cursor x c0) }, lowest_cursor cur c0, ?_, ?_, ?_⟩
        · rw [hcfg, hconf]
          rfl
        · rw [hcur]
          rfl
        · unfold lowest_cursor
          split <;> omega
  | poll =>
    unfold step_op poll_next at hstep
    try simp only [] at hstep
    cases hnc : next_cursor storage st with
    | error e => rw [hnc] at hstep; exact absurd hstep (by simp)
    | ok pair =>
      obtain ⟨ob, st₂⟩ := pair
      rw [hnc] at hstep
      cases ob with
      | none =>
        simp only [Except.ok.injEq, Prod.mk.injEq] at hstep
        obtain ⟨hout, hst2⟩ := hstep
        have hpay : out.payload_cursors = [] := by
          rw [← hout]
          rfl
        obtain ⟨hcfg, -⟩ := next_cursor_ok_none hnc
        refine ⟨⟨conf, cur, ?_, hcur, hle⟩, by simp [hpay]⟩
        rw [← hst2]
        show ({ st₂ with waker := true } : ProducerState).configuration = some conf
        rw [show ({ st₂ with waker := true } : ProducerState).configuration = st₂.configuration from rfl, hcfg, hconf]
      | some b =>
        simp only [Except.ok.injEq, Prod.mk.injEq] at hstep
        obtain ⟨hout, hst2⟩ := hstep
        obtain ⟨hpay, conf', hconf', hcur'⟩ := next_cursor_emission hwf hnc hconf
        have hN : next_block_number_of conf.current = cur.number + 1 := by
          rw [hcur]
          rfl
        constructor
        · rcases hcur' with heq | ⟨cur', hcur', hnum⟩
          · exact ⟨conf', cur, by rw [← hst2]; exact hconf', by rw [heq, hcur], hle⟩
          · exact ⟨conf', cur', by rw [← hst2]; exact hconf', hcur', by omega⟩
        · intro x hx
          have hx' : x ∈ b.payload_cursors := by
            rw [← hout] at hx
            simpa [Output.payload_cursors] using hx
          have := hpay x hx'
          omega

lemma step_invalidate_window {storage : StorageReader}
    {st st' : ProducerState} {op : Op} {out : Output} {c : GlobalBlockId}
    (hstep : step_op storage st op = .ok (out, st'))
    (hinv : out.invalidation = some c) :
    current_at_least c st' := by
  cases op with
  | poll =>
    unfold step_op poll_next at hstep
    try simp only [] at hstep
    cases hnc : next_cursor storage st with
    | error e => rw [hnc] at hstep; exact absurd hstep (by simp)
    | ok pair =>
      obtain ⟨ob, st₂⟩ := pair
      rw [hnc] at hstep
      cases ob with
      | none =>
        simp only [Except.ok.injEq, Prod.mk.injEq] at hstep
        rw [← hstep.1] at hinv
        simp [Output.invalidation] at hinv
      | some b =>
        simp only [Except.ok.injEq, Prod.mk.injEq] at hstep
        rw [← hstep.1] at hinv
        simp [Output.invalidation] at hinv
  | ingest msg =>
    unfold step_op at hstep
    try simp only [] at hstep
    cases hh : handle_ingestion_message storage st msg with
    | error e => rw [hh] at hstep; exact absurd hstep (by simp)
    | ok triple =>
      obtain ⟨r, st₂, n⟩ := triple
      rw [hh] at hstep
      simp only [Except.ok.injEq, Prod.mk.injEq] at hstep
      obtain ⟨hout, hst2⟩ := hstep
      have hr' : r = IngestionResponse.invalidate c := by
        rw [← hout] at hinv
        cases r with
        | ok => simp [Output.invalidation] at hinv
        | invalidate c1 =>
          simp only [Output.invalidation, Option.some.injEq] at hinv
          rw [hinv]
      cases msg with
      | pending c0 =>
        obtain ⟨hr, -⟩ := handle_pending_ok hh
        rw [hr'] at hr
        exact absurd hr (by simp)
      | accepted c0 =>
        obtain ⟨hr, -⟩ := handle_accepted_ok hh
        rw [hr'] at hr
        exact absurd hr (by simp)
      | finalized c0 =>
        obtain ⟨hr, -⟩ := handle_finalized_ok hh
        rw [hr'] at hr
        exact absurd hr (by simp)
      | invalidate c0 =>
        obtain ⟨hr, -, -, hcfg, -⟩ := handle_invalidate_ok hh
        rw [hst2] at hcfg
        rw [hr'] at hr
        by_cases hib : invalidated_by st c0 = true
        · rw [if_pos hib] at hr
          have hc0 : c0 = c := by
            injection hr.symm with h1
          subst hc0
          obtain ⟨conf, cur, hconf, hcur, hgt⟩ := (invalidated_by_iff st c0).mp hib
          refine ⟨{ conf with current := conf.current.map (fun (x : GlobalBlockId) => lowest_cursor x c0) }, lowest_cursor cur c0, ?_, ?_, ?_⟩
          · rw [hcfg, hconf]
            rfl
          · rw [hcur]
            rfl
          · unfold lowest_cursor
            split <;> omega
        · rw [if_neg hib] at hr
          exact absurd hr (by simp)
  | reconfig cfg =>
    unfold step_op at hstep
    try simp only [] at hstep
    cases hh : reconfigure storage cfg st with
    | error e => rw [hh] at hstep; exact absurd hstep (by simp)
    | ok triple =>
      obtain ⟨r, st₂, n⟩ := triple
      rw [hh] at hstep
      simp only [Except.ok.injEq, Prod.mk.injEq] at hstep
      obtain ⟨hout, hst2⟩ := hstep
      have hr' : r = ReconfigureResponse.invalidate c := by
        rw [← hout] at hinv
        cases r with
        | ok => simp [Output.invalidation] at hinv
        | missingStartingCursor => simp [Output.invalidation] at hinv
        | invalidate c1 =>
          simp only [Output.invalidation, Option.some.injEq] at hinv
          rw [hinv]
      rcases reconfigure_ok_cases hh with ⟨hrm, -, -⟩ | ⟨-, current, hst, hcase⟩
      · rw [hr'] at hrm
        exact absurd hrm (by simp)
      · rcases hcase with hrok | ⟨c1, hric, hcu⟩
        · rw [hr'] at hrok
          exact absurd hrok (by simp)
        · rw [hr'] at hric
          have hc1 : c1 = c := by
            injection hric.symm
          subst hc1
          rw [hst] at hst2
          refine ⟨_, c1, by rw [← hst2], hcu, Nat.le_refl _⟩

lemma run_window {storage : StorageReader} (hwf : canonical_numbers_ok storage)
    {c : GlobalBlockId} :
    ∀ (ops : List Op) (st : ProducerState) (outs : List Output) (stF : ProducerState),
      current_at_least c st →
      run storage st ops = some (outs, stF) →
      (∀ op ∈ ops, op.is_reconfig = false) →
      (∀ out ∈ outs, out.invalidation = none) →
      ∀ out ∈ outs, ∀ x ∈ out.payload_cursors, c.number < x.number := by
  intro ops
  induction ops with
  | nil =>
    intro st outs stF hw hrun hnr hni out hout
    unfold run at hrun
    simp only [Option.some.injEq, Prod.mk.injEq] at hrun
    rw [← hrun.1] at hout
    simp at hout
  | cons op ops ih =>
    intro st outs stF hw hrun hnr hni out hout
    unfold run at hrun
    cases hstep : step_op storage st op with
    | error e => rw [hstep] at hrun; exact absurd hrun (by simp)
    | ok pair =>
      obtain ⟨out₀, st₂⟩ := pair
      rw [hstep] at hrun
      try simp only [] at hrun
      cases hrun₂ : run storage st₂ ops with
      | none => rw [hrun₂] at hrun; exact absurd hrun (by simp)
      | some pair₂ =>
        obtain ⟨outs₂, stF₂⟩ := pair₂
        rw [hrun₂] at hrun
        simp only [Option.some.injEq, Prod.mk.injEq] at hrun
        obtain ⟨houts, -⟩ := hrun
        have hni₀ : out₀.invalidation = none := by
          apply hni
          rw [← houts]
          exact List.mem_cons_self _ _
        have h0 := step_preserves_window hwf hstep
          (hnr op (List.mem_cons_self _ _)) hni₀ hw
        rw [← houts] at hout
        rcases List.mem_cons.mp hout with heq | htail
        · rw [heq]
          exact h0.2
        · exact ih st₂ outs₂ stF₂ h0.1 hrun₂
            (fun o ho => hnr o (List.mem_cons_of_mem _ ho))
            (fun o ho => hni o (by rw [← houts]; exact List.mem_cons_of_mem _ ho))
            out htail

/-- A state from which no `Pending` batch can be produced: no configuration,
or `pending_sent` already set. -/
def pending_blocked (st : ProducerState) : Prop :=
  st.configuration = none ∨
  ∃ conf, st.configuration = some conf ∧ conf.pending_sent = true

lemma step_preserves_blocked {storage : StorageReader}
    {st st' : ProducerState} {op : Op} {out : Output}
    (hstep : step_op storage st op = .ok (out, st'))
    (hnr : op.is_reconfig = false)
    (hnp : op.is_pending_message = false)
    (hb : pending_blocked st) :
    pending_blocked st' ∧ out.is_pending_batch = false := by
  cases op with
  | reconfig cfg => simp [Op.is_reconfig] at hnr
  | ingest msg =>
    unfold step_op at hstep
    try simp only [] at hstep
    cases hh : handle_ingestion_message storage st msg with
    | error e => rw [hh] at hstep; exact absurd hstep (by simp)
    | ok triple =>
      obtain ⟨r, st₂, n⟩ := triple
      rw [hh] at hstep
      simp only [Except.ok.injEq, Prod.mk.injEq] at hstep
      obtain ⟨hout, hst2⟩ := hstep
      have hpb : out.is_pending_batch = false := by
        rw [← hout]
        rfl
      refine ⟨?_, hpb⟩
      cases msg with
      | pending c0 => simp [Op.is_pending_message] at hnp
      | accepted c0 =>
        obtain ⟨-, -, -, hcfg, -⟩ := handle_accepted_ok hh
        rw [hst2] at hcfg
        rcases hb with hnone | ⟨conf, hconf, hsent⟩
        · exact Or.inl (by rw [hcfg, hnone])
        · exact Or.inr ⟨conf, by rw [hcfg, hconf], hsent⟩
      | finalized c0 =>
        obtain ⟨-, -, -, hcfg, -⟩ := handle_finalized_ok hh
        rw [hst2] at hcfg
        rcases hb with hnone | ⟨conf, hconf, hsent⟩
        · exact Or.inl (by rw [hcfg, hnone])
        · exact Or.inr ⟨conf, by rw [hcfg, hconf], hsent⟩
      | invalidate c0 =>
        obtain ⟨-, -, -, hcfg, -⟩ := handle_invalidate_ok hh
        rw [hst2] at hcfg
        rcases hb with hnone | ⟨conf, hconf, hsent⟩
        · exact Or.inl (by rw [hcfg, hnone]; rfl)
        · exact Or.inr ⟨{ conf with current := conf.current.map (fun (x : GlobalBlockId) => lowest_cursor x c0) }, by rw [hcfg, hconf]; rfl, hsent⟩
  | poll =>
    unfold step_op poll_next at hstep
    try simp only [] at hstep
    cases hnc : next_cursor storage st with
    | error e => rw [hnc] at hstep; exact absurd hstep (by simp)
    | ok pair =>
      obtain ⟨ob, st₂⟩ := pair
      rw [hnc] at hstep
      cases ob with
      | none =>
        simp only [Except.ok.injEq, Prod.mk.injEq] at hstep
        obtain ⟨hout, hst2⟩ := hstep
        have hpb : out.is_pending_batch = false := by
          rw [← hout]
          rfl
        obtain ⟨hcfg, -⟩ := next_cursor_ok_none hnc
        have hcfg' : st'.configuration = st.configuration := by
          rw [← hst2]
          exact hcfg
        refine ⟨?_, hpb⟩
        rcases hb with hnone | ⟨conf, hconf, hsent⟩
        · exact Or.inl (by rw [hcfg', hnone])
        · exact Or.inr ⟨conf, by rw [hcfg', hconf], hsent⟩
      | some b =>
        simp only [Except.ok.injEq, Prod.mk.injEq] at hstep
        obtain ⟨hout, hst2⟩ := hstep
        obtain ⟨view, conf₁, hgis, hconf₁, hcases⟩ := next_cursor_ok_some hnc
        rcases hb with hnone | ⟨conf, hconf, hsent⟩
        · rw [hconf₁] at hnone
          exact absurd hnone (by simp)
        · have hce : conf = conf₁ := by
            rw [hconf] at hconf₁
            exact Option.some.inj hconf₁
          rcases hcases with ⟨f, hf, hn, hfin⟩ | hacc | ⟨p, hp, hnp2, hpend⟩
          · obtain ⟨conf₂, cursors, hconf₂, h2x, h3x, h4x, hb', hst'⟩ :=
              next_cursor_finalized_ok_some hfin
            have hconf₂' : st.configuration = some conf₂ := hconf₂
            have hce₂ : conf = conf₂ := by
              rw [hconf] at hconf₂'
              exact Option.some.inj hconf₂'
            constructor
            · refine Or.inr ⟨{ conf₂ with current := cursors.getLast? }, by rw [← hst2, hst'], ?_⟩
              show conf₂.pending_sent = true
              rw [← hce₂]
              exact hsent
            · rw [← hout, hb']
              rfl
          · obtain ⟨conf₂, cursor, hconf₂, h2x, h3x, h4x, hb', hst'⟩ :=
              next_cursor_accepted_ok_some hacc
            have hconf₂' : st.configuration = some conf₂ := hconf₂
            have hce₂ : conf = conf₂ := by
              rw [hconf] at hconf₂'
              exact Option.some.inj hconf₂'
            constructor
            · refine Or.inr ⟨{ conf₂ with current := some cursor }, by rw [← hst2, hst'], ?_⟩
              show conf₂.pending_sent = true
              rw [← hce₂]
              exact hsent
            · rw [← hout, hb']
              rfl
          · obtain ⟨conf₂, cursor, hconf₂, h2x, hps, h3x, h4x, h5x⟩ :=
              next_cursor_pending_ok_some hpend
            have hconf₂' : st.configuration = some conf₂ := hconf₂
            have hce₂ : conf = conf₂ := by
              rw [hconf] at hconf₂'
              exact Option.some.inj hconf₂'
            rw [← hce₂, hsent] at hps
            exact absurd hps (by simp)

lemma step_pending_batch_sets_blocked {storage : StorageReader}
    {st st' : ProducerState} {op : Op} {out : Output}
    (hstep : step_op storage st op = .ok (out, st'))
    (hpb : out.is_pending_batch = true) :
    pending_blocked st' := by
  cases op with
  | reconfig cfg =>
    unfold step_op at hstep
    try simp only [] at hstep
    cases hh : reconfigure storage cfg st with
    | error e => rw [hh] at hstep; exact absurd hstep (by simp)
    | ok triple =>
      obtain ⟨r, st₂, n⟩ := triple
      rw [hh] at hstep
      simp only [Except.ok.injEq, Prod.mk.injEq] at hstep
      rw [← hstep.1] at hpb
      simp [Output.is_pending_batch] at hpb
  | ingest msg =>
    unfold step_op at hstep
    try simp only [] at hstep
    cases hh : handle_ingestion_message storage st msg with
    | error e => rw [hh] at hstep; exact absurd hstep (by simp)
    | ok triple =>
      obtain ⟨r, st₂, n⟩ := triple
      rw [hh] at hstep
      simp only [Except.ok.injEq, Prod.mk.injEq] at hstep
      rw [← hstep.1] at hpb
      simp [Output.is_pending_batch] at hpb
  | poll =>
    unfold step_op poll_next at hstep
    try simp only [] at hstep
    cases hnc : next_cursor storage st with
    | error e => rw [hnc] at hstep; exact absurd hstep (by simp)
    | ok pair =>
      obtain ⟨ob, st₂⟩ := pair
      rw [hnc] at hstep
      cases ob with
      | none =>
        simp only [Except.ok.injEq, Prod.mk.injEq] at hstep
        rw [← hstep.1] at hpb
        simp [Output.is_pending_batch] at hpb
      | some b =>
        simp only [Except.ok.injEq, Prod.mk.injEq] at hstep
        obtain ⟨hout, hst2⟩ := hstep
        rw [← hout] at hpb
        obtain ⟨view, conf₁, hgis, hconf₁, hcases⟩ := next_cursor_ok_some hnc
        rcases hcases with ⟨f, hf, hn, hfin⟩ | hacc | ⟨p, hp, hnp2, hpend⟩
        · obtain ⟨confx, cursorsx, h1x, h2x, h3x, h4x, hb', h5x⟩ := next_cursor_finalized_ok_some hfin
          rw [hb'] at hpb
          simp [Output.is_pending_batch] at hpb
        · obtain ⟨confx, cursorx, h1x, h2x, h3x, h4x, hb', h5x⟩ := next_cursor_accepted_ok_some hacc
          rw [hb'] at hpb
          simp [Output.is_pending_batch] at hpb
        · obtain ⟨conf₂, cursor, hconf₂, -, -, -, -, hst'⟩ :=
            next_cursor_pending_ok_some hpend
          exact Or.inr ⟨_, by rw [← hst2, hst'], rfl⟩

lemma run_blocked_zero {storage : StorageReader} :
    ∀ (ops : List Op) (st : ProducerState) (outs : List Output) (stF : ProducerState),
      pending_blocked st →
      run storage st ops = some (outs, stF) →
      (∀ op ∈ ops, op.is_reconfig = false) →
      (∀ op ∈ ops, op.is_pending_message = false) →
      outs.countP Output.is_pending_batch = 0 := by
  intro ops
  induction ops with
  | nil =>
    intro st outs stF hb hrun hnr hnp
    unfold run at hrun
    simp only [Option.some.injEq, Prod.mk.injEq] at hrun
    rw [← hrun.1]
    rfl
  | cons op ops ih =>
    intro st outs stF hb hrun hnr hnp
    unfold run at hrun
    cases hstep : step_op storage st op with
    | error e => rw [hstep] at hrun; exact absurd hrun (by simp)
    | ok pair =>
      obtain ⟨out₀, st₂⟩ := pair
      rw [hstep] at hrun
      try simp only [] at hrun
      cases hrun₂ : run storage st₂ ops with
      | none => rw [hrun₂] at hrun; exact absurd hrun (by simp)
      | some pair₂ =>
        obtain ⟨outs₂, stF₂⟩ := pair₂
        rw [hrun₂] at hrun
        simp only [Option.some.injEq, Prod.mk.injEq] at hrun
        obtain ⟨houts, -⟩ := hrun
        obtain ⟨hb₂, hout0⟩ := step_preserves_blocked hstep
          (hnr op (List.mem_cons_self _ _)) (hnp op (List.mem_cons_self _ _)) hb
        have htail := ih st₂ outs₂ stF₂ hb₂ hrun₂
          (fun o ho => hnr o (List.mem_cons_of_mem _ ho))
          (fun o ho => hnp o (List.mem_cons_of_mem _ ho))
        rw [← houts, List.countP_cons, hout0, htail]
        simp

lemma run_pending_at_most_one {storage : StorageReader} :
    ∀ (ops : List Op) (st : ProducerState) (outs : List Output) (stF : ProducerState),
      run storage st ops = some (outs, stF) →
      (∀ op ∈ ops, op.is_reconfig = false) →
      (∀ op ∈ ops, op.is_pending_message = false) →
      outs.countP Output.is_pending_batch ≤ 1 := by
  intro ops
  induction ops with
  | nil =>
    intro st outs stF hrun hnr hnp
    unfold run at hrun
    simp only [Option.some.injEq, Prod.mk.injEq] at hrun
    rw [← hrun.1]
    simp
  | cons op ops ih =>
    intro st outs stF hrun hnr hnp
    unfold run at hrun
    cases hstep : step_op storage st op with
    | error e => rw [hstep] at hrun; exact absurd hrun (by simp)
    | ok pair =>
      obtain ⟨out₀, st₂⟩ := pair
      rw [hstep] at hrun
      try simp only [] at hrun
      cases hrun₂ : run storage st₂ ops with
      | none => rw [hrun₂] at hrun; exact absurd hrun (by simp)
      | some pair₂ =>
        obtain ⟨outs₂, stF₂⟩ := pair₂
        rw [hrun₂] at hrun
        simp only [Option.some.injEq, Prod.mk.injEq] at hrun
        obtain ⟨houts, -⟩ := hrun
        rw [← houts, List.countP_cons]
        by_cases hpb : out₀.is_pending_batch = true
        · have hb₂ := step_pending_batch_sets_blocked hstep hpb
          have hzero := run_blocked_zero ops st₂ outs₂ stF₂ hb₂ hrun₂
            (fun o ho => hnr o (List.mem_cons_of_mem _ ho))
            (fun o ho => hnp o (List.mem_cons_of_mem _ ho))
          rw [hzero, hpb]
          simp
        · have htail := ih st₂ outs₂ stF₂ hrun₂
            (fun o ho => hnr o (List.mem_cons_of_mem _ ho))
            (fun o ho => hnp o (List.mem_cons_of_mem _ ho))
          have hpb' : out₀.is_pending_batch = false := by
            cases hx : out₀.is_pending_batch
            · rfl
            · exact absurd hx hpb
          rw [hpb']
          simpa using htail

/-- Test block id with a nonzero hash, mirroring the repository's unit-test
helper `new_block_id`. -/
def tb (n : Nat) : GlobalBlockId := ⟨n, n + 1⟩

/-- A storage whose canonical chain is `tb 0, tb 1, …`, with accepted tip 100
and finalized tip 90, every status accepted-on-L1. -/
def test_storage : StorageReader where
  canonical_block_id := fun k => .ok (some (tb k))
  read_status := fun _ => .ok (some .acceptedOnL1)
  read_header := fun c => .ok (some ⟨c.number, c.number⟩)
  highest_accepted_block := .ok (some (tb 100))
  highest_finalized_block := .ok (some (tb 90))

/-- C7: Strict source priority in the stream driver: on every iteration of the
driver loop, if a configuration event is ready it is handled before any ready
ingestion event or batch cursor (the iteration takes the configuration
branch), and if an ingestion event is ready it is handled before any ready
batch cursor, regardless of the state of the lower-priority sources.  This is
the `biased` prioritized select of `new_data_stream`. -/
theorem C7_driver_strict_priority :
    (∀ (storage : StorageReader) (st : DriverState) (cfg : StreamConfiguration)
        (ing : Option IngestionMessage),
      (driver_iteration storage st (some cfg) ing).1 =
        DriverBranch.configurationBranch) ∧
    (∀ (storage : StorageReader) (st : DriverState) (msg : IngestionMessage),
      (driver_iteration storage st none (some msg)).1 =
        DriverBranch.ingestionBranch) := by
  constructor
  · intro storage st cfg ing
    unfold driver_iteration
    try simp only []
    cases h : reconfigure storage cfg st.producer with
    | error e => rfl
    | ok triple =>
      obtain ⟨response, producer, n⟩ := triple
      cases response <;> rfl
  · intro storage st msg
    unfold driver_iteration
    try simp only []
    cases h : handle_ingestion_message storage st.producer msg with
    | error e => rfl
    | ok triple =>
      obtain ⟨response, producer, n⟩ := triple
      cases response <;> rfl

/-- C9: For every `Accepted(c)` ingestion message, `handle_ingestion_message`
unconditionally sets the ingestion view's finalized tip to `None` and its
accepted tip to `Some c`, leaves the configuration (current, pending_sent,
data_finality, batch_size) unchanged, and returns `Ok` (the full result, with
the wakeup count, is given by the equation; the configuration field of the
state is untouched). -/
theorem C9_accepted_message :
    ∀ (storage : StorageReader) (st : ProducerState) (view : IngestionState)
      (c : GlobalBlockId),
      st.ingestion_state = some view →
      handle_ingestion_message storage st (.accepted c) = .ok (IngestionResponse.ok, { st with ingestion_state := some { view with finalized := none, accepted := some c }, waker := false }, if st.waker then 1 else 0) := by
  intro storage st view c hview
  unfold handle_ingestion_message
  rw [get_ingestion_state_of_some storage hview]
  try simp only []
  rw [wake_eq]
  try simp only []
  try rfl

/-- C9 witness: the accepted-message equation evaluated at a concrete state. -/
theorem C9_accepted_message_witness :
    handle_ingestion_message test_storage { configuration := some ⟨some (tb 5), false, DataFinality.dataStatusFinalized, 3⟩, ingestion_state := some ⟨some (tb 10), some (tb 12), none⟩, waker := true } (.accepted (tb 13)) = .ok (IngestionResponse.ok, { configuration := some ⟨some (tb 5), false, DataFinality.dataStatusFinalized, 3⟩, ingestion_state := some ⟨none, some (tb 13), none⟩, waker := false }, 1) := by
  have h := C9_accepted_message test_storage { configuration := some ⟨some (tb 5), false, DataFinality.dataStatusFinalized, 3⟩, ingestion_state := some ⟨some (tb 10), some (tb 12), none⟩, waker := true } ⟨some (tb 10), some (tb 12), none⟩ (tb 13) rfl
  exact h

/-- C2: For every `Invalidate(c)` ingestion message, `handle_ingestion_message`
sets pending to `None`, replaces each of accepted, finalized, and the
configuration's current with `lowest_cursor` of its old value and `c`
(whichever has the lower block number; an absent value stays absent), and
returns `Invalidate(c)` if and only if `current.number > c.number` at the
moment of the event; in every other case (no configuration, `current = None`,
or `current.number ≤ c.number`) it returns `Ok`. -/
theorem C2_invalidate_message :
    ∀ (storage : StorageReader) (st : ProducerState) (view : IngestionState)
      (c : GlobalBlockId),
      st.ingestion_state = some view →
      handle_ingestion_message storage st (.invalidate c) = .ok ((if invalidated_by st c then IngestionResponse.invalidate c else IngestionResponse.ok), { st with configuration := st.configuration.map (fun (conf : BatchConfiguration) => { conf with current := conf.current.map (fun (x : GlobalBlockId) => lowest_cursor x c) }), ingestion_state := some { finalized := view.finalized.map (fun (x : GlobalBlockId) => lowest_cursor x c), accepted := view.accepted.map (fun (x : GlobalBlockId) => lowest_cursor x c), pending := none }, waker := false }, if st.waker then 1 else 0) ∧
      (invalidated_by st c = true ↔
        ∃ conf cur, st.configuration = some conf ∧ conf.current = some cur ∧
          c.number < cur.number) ∧
      (∀ a b : GlobalBlockId,
        (lowest_cursor a b).number = Nat.min a.number b.number) := by
  intro storage st view c hview
  refine ⟨?_, invalidated_by_iff st c, fun a b => lowest_cursor_number a b⟩
  unfold handle_ingestion_message invalidated_by
  rw [get_ingestion_state_of_some storage hview]
  try simp only []
  cases hconf : st.configuration with
  | none =>
    rw [wake_eq]
    try simp only []
    first
    | rfl
    | simp [hconf]
  | some conf =>
    rw [wake_eq]
    try simp only []
    first
    | rfl
    | simp [hconf]

/-- C2 witness: an invalidation below `current` at a concrete state produces
the outbound `Invalidate` and clamps the tips. -/
theorem C2_invalidate_message_witness :
    handle_ingestion_message test_storage { configuration := some ⟨some (tb 5), false, DataFinality.dataStatusFinalized, 3⟩, ingestion_state := some ⟨some (tb 10), none, none⟩, waker := false } (.invalidate (tb 2)) = .ok (IngestionResponse.invalidate (tb 2), { configuration := some ⟨some (tb 2), false, DataFinality.dataStatusFinalized, 3⟩, ingestion_state := some ⟨some (tb 2), none, none⟩, waker := false }, 0) := by
  have h := (C2_invalidate_message test_storage { configuration := some ⟨some (tb 5), false, DataFinality.dataStatusFinalized, 3⟩, ingestion_state := some ⟨some (tb 10), none, none⟩, waker := false } ⟨some (tb 10), none, none⟩ (tb 2) rfl).1
  rw [h]
  decide

lemma liftStorage_error {α : Type} {x : Except StorageErr α} {e : PErr}
    (h : liftStorage x = .error e) : ∃ se, e = PErr.storage se := by
  cases x with
  | error f =>
    simp only [liftStorage, Except.error.injEq] at h
    exact ⟨f, h.symm⟩
  | ok a => simp [liftStorage] at h

lemma get_ingestion_state_error {storage : StorageReader} {st : ProducerState}
    {e : PErr} (h : get_ingestion_state storage st = .error e) :
    ∃ se, e = PErr.storage se := by
  unfold get_ingestion_state at h
  cases hs : st.ingestion_state with
  | some s => rw [hs] at h; simp at h
  | none =>
    rw [hs] at h
    cases ha : storage.highest_accepted_block with
    | error f =>
      rw [ha] at h
      simp only [liftStorage, Except.error.injEq] at h
      exact ⟨f, h.symm⟩
    | ok accepted =>
      rw [ha] at h
      try simp only [liftStorage] at h
      cases hf : storage.highest_finalized_block with
      | error g =>
        rw [hf] at h
        simp only [liftStorage, Except.error.injEq] at h
        exact ⟨g, h.symm⟩
      | ok finalized =>
        rw [hf] at h
        simp [liftStorage] at h

lemma collect_canonical_error {storage : StorageReader} {e : PErr} :
    ∀ (count N : Nat), collect_canonical storage N count = .error e →
      ∃ se, e = PErr.storage se := by
  intro count
  induction count with
  | zero => intro N h; simp [collect_canonical] at h
  | succ n ih =>
    intro N h
    unfold collect_canonical at h
    cases hc : storage.canonical_block_id N with
    | error f =>
      rw [hc] at h
      simp only [liftStorage, Except.error.injEq] at h
      exact ⟨f, h.symm⟩
    | ok o =>
      rw [hc] at h
      cases o with
      | none => simp [liftStorage] at h
      | some cursor =>
        simp only [liftStorage] at h
        cases hr : collect_canonical storage (N + 1) n with
        | error g =>
          rw [hr] at h
          simp only [Except.error.injEq] at h
          subst h
          exact ih (N + 1) hr
        | ok rest => rw [hr] at h; simp at h

lemma next_cursor_finalized_error {storage : StorageReader} {st : ProducerState}
    {s : Option GlobalBlockId} {N : Nat} {f : GlobalBlockId} {e : PErr}
    {conf : BatchConfiguration}
    (hconf : st.configuration = some conf) (hbs : 1 ≤ conf.batch_size)
    (h : next_cursor_finalized storage st s N f = .error e) :
    ∃ se, e = PErr.storage se := by
  unfold next_cursor_finalized at h
  rw [hconf] at h
  try simp only [] at h
  unfold checked_sub_u64 at h
  rw [if_neg (by omega)] at h
  try simp only [] at h
  cases hcol : collect_canonical storage N
      (Nat.min f.number (N + conf.batch_size - 1) + 1 - N) with
  | error g =>
    rw [hcol] at h
    simp only [Except.error.injEq] at h
    subst h
    exact collect_canonical_error _ _ hcol
  | ok cursors =>
    rw [hcol] at h
    try simp only [] at h
    split at h <;> simp at h

lemma next_cursor_accepted_error {storage : StorageReader} {st : ProducerState}
    {s : Option GlobalBlockId} {N : Nat} {e : PErr} {conf : BatchConfiguration}
    (hconf : st.configuration = some conf)
    (h : next_cursor_accepted storage st s N = .error e) :
    ∃ se, e = PErr.storage se := by
  unfold next_cursor_accepted at h
  rw [hconf] at h
  try simp only [] at h
  by_cases hfin : conf.data_finality = DataFinality.dataStatusFinalized ∨
      conf.data_finality = DataFinality.dataStatusUnknown
  · rw [if_pos hfin] at h
    simp at h
  · rw [if_neg hfin] at h
    cases hcan : storage.canonical_block_id N with
    | error g =>
      rw [hcan] at h
      simp only [liftStorage, Except.error.injEq] at h
      exact ⟨g, h.symm⟩
    | ok o =>
      rw [hcan] at h
      cases o <;> simp [liftStorage] at h

lemma next_cursor_pending_error {storage : StorageReader} {st : ProducerState}
    {s : Option GlobalBlockId} {N : Nat} {e : PErr} {conf : BatchConfiguration}
    (hconf : st.configuration = some conf)
    (h : next_cursor_pending storage st s N = .error e) :
    ∃ se, e = PErr.storage se := by
  unfold next_cursor_pending at h
  rw [hconf] at h
  try simp only [] at h
  by_cases hcond : conf.data_finality ≠ DataFinality.dataStatusPending ∨
      conf.pending_sent = true
  · rw [if_pos hcond] at h
    simp at h
  · rw [if_neg hcond] at h
    cases hcan : storage.canonical_block_id N with
    | error g =>
      rw [hcan] at h
      simp only [liftStorage, Except.error.injEq] at h
      exact ⟨g, h.symm⟩
    | ok o =>
      rw [hcan] at h
      cases o <;> simp [liftStorage] at h

lemma next_cursor_try_pending_error {storage : StorageReader} {st : ProducerState}
    {view : IngestionState} {s : Option GlobalBlockId} {N : Nat} {e : PErr}
    {conf : BatchConfiguration}
    (hconf : st.configuration = some conf)
    (h : next_cursor_try_pending storage st view s N = .error e) :
    ∃ se, e = PErr.storage se := by
  unfold next_cursor_try_pending at h
  cases hp : view.pending with
  | none => rw [hp] at h; simp at h
  | some p =>
    rw [hp] at h
    try simp only [] at h
    by_cases hn : N ≤ p.number
    · rw [if_pos hn] at h
      exact next_cursor_pending_error hconf h
    · rw [if_neg hn] at h
      simp at h

lemma next_cursor_try_accepted_error {storage : StorageReader} {st : ProducerState}
    {view : IngestionState} {s : Option GlobalBlockId} {N : Nat} {e : PErr}
    {conf : BatchConfiguration}
    (hconf : st.configuration = some conf)
    (h : next_cursor_try_accepted storage st view s N = .error e) :
    ∃ se, e = PErr.storage se := by
  unfold next_cursor_try_accepted at h
  cases ha : view.accepted with
  | none => rw [ha] at h; exact next_cursor_try_pending_error hconf h
  | some a =>
    rw [ha] at h
    try simp only [] at h
    by_cases hn : N ≤ a.number
    · rw [if_pos hn] at h
      exact next_cursor_accepted_error hconf h
    · rw [if_neg hn] at h
      exact next_cursor_try_pending_error hconf h

lemma next_cursor_error_storage {storage : StorageReader} {st : ProducerState}
    {e : PErr}
    (hbs : ∀ conf, st.configuration = some conf → 1 ≤ conf.batch_size)
    (h : next_cursor storage st = .error e) :
    ∃ se, e = PErr.storage se := by
  unfold next_cursor at h
  by_cases hcs : st.configuration.isSome
  · rw [if_pos hcs] at h
    unfold next_cursor_with_configuration at h
    cases hgis : get_ingestion_state storage st with
    | error g =>
      rw [hgis] at h
      simp only [Except.error.injEq] at h
      subst h
      exact get_ingestion_state_error hgis
    | ok pair =>
      obtain ⟨view, st₁⟩ := pair
      rw [hgis] at h
      try simp only [] at h
      obtain ⟨hst₁, -⟩ := get_ingestion_state_ok hgis
      subst hst₁
      cases hconf : st.configuration with
      | none => simp [hconf] at hcs
      | some conf =>
        have hconf₁ :
            ({ st with ingestion_state := some view } : ProducerState).configuration
              = some conf := hconf
        rw [hconf₁] at h
        try simp only [] at h
        have hbs1 : 1 ≤ conf.batch_size := hbs conf hconf
        cases hfin : view.finalized with
        | some f =>
          rw [hfin] at h
          try simp only [] at h
          by_cases hn : next_block_number_of conf.current ≤ f.number
          · rw [if_pos hn] at h
            exact next_cursor_finalized_error rfl hbs1 h
          · rw [if_neg hn] at h
            exact next_cursor_try_accepted_error rfl h
        | none =>
          rw [hfin] at h
          try simp only [] at h
          exact next_cursor_try_accepted_error rfl h
  · rw [if_neg hcs] at h
    simp at h

/-- C10: `next_cursor` is total only under `batch_size ≥ 1`: whenever every
stored configuration has `batch_size ≥ 1`, the computation of
`final_block_number = next_block_number + batch_size − 1` on the finalized
path never underflows (no panic outcome is reachable, every failure being a
propagated storage error); whereas with `batch_size = 0`, `current = None`,
and a finalized tip present, the expression `0 + 0 − 1` underflows `u64`, so
the function is partial without that precondition. -/
theorem C10_batch_size_underflow :
    (∀ (storage : StorageReader) (st : ProducerState),
      (∀ conf, st.configuration = some conf → 1 ≤ conf.batch_size) →
      ∀ msg, next_cursor storage st ≠ .error (.panicked msg)) ∧
    next_cursor test_storage { configuration := some ⟨none, false, DataFinality.dataStatusFinalized, 0⟩, ingestion_state := some ⟨some (tb 90), none, none⟩, waker := false } = .error (.panicked "attempt to subtract with overflow") := by
  constructor
  · intro storage st hbs msg hcontra
    obtain ⟨se, hse⟩ := next_cursor_error_storage hbs hcontra
    exact absurd hse (by simp)
  · rfl

/-- C10 witness: with a positive batch size the poll at a concrete state is
not a panic. -/
theorem C10_batch_size_underflow_witness :
    next_cursor test_storage { configuration := some ⟨none, false, DataFinality.dataStatusFinalized, 3⟩, ingestion_state := some ⟨some (tb 90), none, none⟩, waker := false } ≠ .error (.panicked "attempt to subtract with overflow") := by
  exact C10_batch_size_underflow.1 test_storage _
    (fun conf hconf => by injection hconf with h1; rw [← h1]; decide) _

/-- C5: Finality filter invariant, proved for every state (hence every
reachable state under every sequence of operations): when the configured
data_finality is Finalized or Unknown, `next_cursor` never returns an
Accepted or Pending batch cursor; when it is anything other than Pending,
`next_cursor` never returns a Pending batch cursor. -/
theorem C5_finality_filter :
    ∀ (storage : StorageReader) (st st' : ProducerState)
      (conf : BatchConfiguration) (b : BatchCursor),
      st.configuration = some conf →
      next_cursor storage st = .ok (some b, st') →
      ((conf.data_finality = DataFinality.dataStatusFinalized ∨
        conf.data_finality = DataFinality.dataStatusUnknown) →
        ∃ s cs, b = BatchCursor.finalized s cs) ∧
      (conf.data_finality ≠ DataFinality.dataStatusPending →
        ∀ s p, b ≠ BatchCursor.pending s p) := by
  intro storage st st' conf b hconf hnc
  obtain ⟨view, conf₁, hgis, hconf₁, hcases⟩ := next_cursor_ok_some hnc
  have hce : conf = conf₁ := by
    rw [hconf] at hconf₁
    exact Option.some.inj hconf₁
  subst hce
  rcases hcases with ⟨f, hf, hn, hfin⟩ | hacc | ⟨p, hp, hnp, hpend⟩
  · obtain ⟨conf₂, cursors, hconf₂, h2x, h3x, h4x, hb, h5x⟩ :=
      next_cursor_finalized_ok_some hfin
    exact ⟨fun _ => ⟨conf.current, cursors, hb⟩, fun _ s p => by rw [hb]; simp⟩
  · obtain ⟨conf₂, cursor, hconf₂, hnf, hnu, h3x, hb, h5x⟩ :=
      next_cursor_accepted_ok_some hacc
    have hconf₂' : st.configuration = some conf₂ := hconf₂
    have hce₂ : conf = conf₂ := by
      rw [hconf] at hconf₂'
      exact Option.some.inj hconf₂'
    subst hce₂
    refine ⟨fun hfu => ?_, fun _ s p => by rw [hb]; simp⟩
    rcases hfu with hfu | hfu
    · exact absurd hfu hnf
    · exact absurd hfu hnu
  · obtain ⟨conf₂, cursor, hconf₂, hdp, h2x, h3x, hb, h5x⟩ :=
      next_cursor_pending_ok_some hpend
    have hconf₂' : st.configuration = some conf₂ := hconf₂
    have hce₂ : conf = conf₂ := by
      rw [hconf] at hconf₂'
      exact Option.some.inj hconf₂'
    subst hce₂
    refine ⟨fun hfu => ?_, fun hnpd => absurd hdp hnpd⟩
    rcases hfu with hfu | hfu <;> rw [hfu] at hdp <;> exact absurd hdp (by simp)

def c1_state : ProducerState := { configuration := some ⟨none, false, DataFinality.dataStatusFinalized, 3⟩, ingestion_state := some ⟨some (tb 90), some (tb 100), none⟩, waker := false }

def c1_state' : ProducerState := { configuration := some ⟨some (tb 2), false, DataFinality.dataStatusFinalized, 3⟩, ingestion_state := some ⟨some (tb 90), some (tb 100), none⟩, waker := false }

/-- C5 witness: a Finalized-mode poll at a concrete state produces a
Finalized batch, which is neither Accepted nor Pending. -/
theorem C5_finality_filter_witness :
    (∃ s cs, BatchCursor.finalized none [tb 0, tb 1, tb 2] =
      BatchCursor.finalized s cs) ∧
    (∀ s p, BatchCursor.finalized none [tb 0, tb 1, tb 2] ≠
      BatchCursor.pending s p) := by
  have hnc : next_cursor test_storage c1_state =
      .ok (some (BatchCursor.finalized none [tb 0, tb 1, tb 2]), c1_state') := by
    decide
  have h := C5_finality_filter test_storage c1_state c1_state'
    ⟨none, false, DataFinality.dataStatusFinalized, 3⟩
    (BatchCursor.finalized none [tb 0, tb 1, tb 2]) rfl hnc
  exact ⟨h.1 (Or.inl rfl), h.2 (by decide)⟩

/-- C1: Finalized-path production.  With a configuration present, the
ingestion view loaded with finalized tip `Some F`, `N ≤ F.number` (where
`N = current.number + 1`, or 0 when current is `None`), and `batch_size ≥ 1`,
`next_cursor` looks up `canonical_block_id(k)` for `k` from `N` up to
`end = min(F.number, N + batch_size − 1)`, stopping at the first absent
cursor: if at least one cursor was collected it sets current to the last
collected cursor and returns `Finalized(prior current, cursors)` with
`1 ≤ n ≤ batch_size`; otherwise it returns nothing and leaves the state
unchanged. -/
theorem C1_finalized_path_production :
    ∀ (storage : StorageReader) (st : ProducerState) (conf : BatchConfiguration)
      (view : IngestionState) (F : GlobalBlockId) (cursors : List GlobalBlockId),
      st.configuration = some conf →
      st.ingestion_state = some view →
      view.finalized = some F →
      next_block_number_of conf.current ≤ F.number →
      1 ≤ conf.batch_size →
      collect_canonical storage (next_block_number_of conf.current) (Nat.min F.number (next_block_number_of conf.current + conf.batch_size - 1) + 1 - next_block_number_of conf.current) = .ok cursors →
      (cursors = [] → next_cursor storage st = .ok (none, st)) ∧
      (cursors ≠ [] →
        next_cursor storage st = .ok (some (BatchCursor.finalized conf.current cursors), { st with configuration := some { conf with current := cursors.getLast? } }) ∧
        1 ≤ cursors.length ∧ cursors.length ≤ conf.batch_size) ∧
      (∀ i, i < cursors.length →
        storage.canonical_block_id (next_block_number_of conf.current + i) =
          .ok cursors[i]?) ∧
      (cursors.length < Nat.min F.number (next_block_number_of conf.current + conf.batch_size - 1) + 1 - next_block_number_of conf.current →
        storage.canonical_block_id
          (next_block_number_of conf.current + cursors.length) = .ok none) := by
  intro storage st conf view F cursors hconf hview hfin hN hbs hcol
  obtain ⟨hlen, hget, hgap⟩ := collect_canonical_spec storage _ _ _ hcol
  have hdisp : next_cursor storage st =
      next_cursor_finalized storage st conf.current
        (next_block_number_of conf.current) F := by
    unfold next_cursor
    rw [if_pos (by rw [hconf]; rfl)]
    unfold next_cursor_with_configuration
    rw [get_ingestion_state_of_some storage hview]
    try simp only []
    rw [hconf]
    try simp only []
    rw [hfin]
    try simp only []
    rw [if_pos hN]
  have hfineq : ∀ hemp : Bool, cursors.isEmpty = hemp →
      next_cursor_finalized storage st conf.current
        (next_block_number_of conf.current) F =
      (if cursors.isEmpty then .ok (none, st)
       else .ok (some (BatchCursor.finalized conf.current cursors), { st with configuration := some { conf with current := cursors.getLast? } })) := by
    intro hemp hempv
    unfold next_cursor_finalized
    rw [hconf]
    try simp only []
    unfold checked_sub_u64
    rw [if_neg (by omega)]
    try simp only []
    rw [hcol]
    try simp only []
    cases hemp with
    | true => rw [if_pos hempv, if_pos hempv]
    | false =>
      rw [if_neg (by rw [hempv]; simp), if_neg (by rw [hempv]; simp)]
      simp [BatchCursor.end_cursor]
  refine ⟨?_, ?_, hget, hgap⟩
  · intro hnil
    rw [hdisp, hfineq true (by rw [hnil]; rfl), if_pos (by rw [hnil]; rfl)]
  · intro hne
    have hempf : cursors.isEmpty = false := by
      cases hc : cursors.isEmpty with
      | false => rfl
      | true => exact absurd (List.isEmpty_iff.mp hc) hne
    refine ⟨?_, ?_, ?_⟩
    · rw [hdisp, hfineq false hempf, if_neg (by rw [hempf]; simp)]
    · have : 0 < cursors.length := List.length_pos.mpr hne
      omega
    · have hend : Nat.min F.number (next_block_number_of conf.current + conf.batch_size - 1) + 1 - next_block_number_of conf.current ≤ conf.batch_size := by
        have h1 : Nat.min F.number (next_block_number_of conf.current + conf.batch_size - 1) ≤ next_block_number_of conf.current + conf.batch_size - 1 := Nat.min_le_right _ _
        omega
      omega

/-- C1 witness: the finalized path at a concrete state produces the first
full batch of three cursors and advances current to the last of them. -/
theorem C1_finalized_path_production_witness :
    next_cursor test_storage c1_state = .ok (some (BatchCursor.finalized none [tb 0, tb 1, tb 2]), { c1_state with configuration := some ⟨some (tb 2), false, DataFinality.dataStatusFinalized, 3⟩ }) ∧
    1 ≤ [tb 0, tb 1, tb 2].length ∧ [tb 0, tb 1, tb 2].length ≤ 3 := by
  have h := C1_finalized_path_production test_storage c1_state
    ⟨none, false, DataFinality.dataStatusFinalized, 3⟩
    ⟨some (tb 90), some (tb 100), none⟩ (tb 90) [tb 0, tb 1, tb 2]
    rfl rfl rfl (by decide) (by decide) (by decide)
  have h2 := h.2.1 (by decide)
  exact ⟨h2.1, h2.2⟩

/-- C3 (amended): after an `Invalidate(c)` response is emitted (by
`reconfigure` or by `handle_ingestion_message`), every cursor contained in
the payload of every subsequently produced batch cursor has block number
strictly greater than `c.number`, until another invalidation occurs **or a
reconfiguration occurs** (the amendment: a reconfiguration may rewind
`current` below `c` and restart production there, as the counterexample
shows), for every storage satisfying the `canonical_block_id` number
contract. -/
theorem C3_invalidation_contract_amended :
    ∀ (storage : StorageReader), canonical_numbers_ok storage →
    ∀ (st st₁ : ProducerState) (op : Op) (out : Output) (c : GlobalBlockId),
      step_op storage st op = .ok (out, st₁) →
      out.invalidation = some c →
      ∀ (ops : List Op) (outs : List Output) (stF : ProducerState),
        run storage st₁ ops = some (outs, stF) →
        (∀ op2 ∈ ops, op2.is_reconfig = false) →
        (∀ out2 ∈ outs, out2.invalidation = none) →
        ∀ out2 ∈ outs, ∀ x ∈ out2.payload_cursors, c.number < x.number := by
  intro storage hwf st st₁ op out c hstep hinv ops outs stF hrun hnr hni
  exact run_window hwf ops st₁ outs stF (step_invalidate_window hstep hinv)
    hrun hnr hni

def c3_state : ProducerState := { configuration := some ⟨some (tb 5), false, DataFinality.dataStatusFinalized, 3⟩, ingestion_state := some ⟨some (tb 10), none, none⟩, waker := false }

def c3_state₁ : ProducerState := { configuration := some ⟨some (tb 2), false, DataFinality.dataStatusFinalized, 3⟩, ingestion_state := some ⟨some (tb 2), none, none⟩, waker := false }

def c3_cfg : StreamConfiguration := ⟨1, none, DataFinality.dataStatusFinalized, 3⟩

def c3_stateW : ProducerState := { configuration := some ⟨some (tb 5), false, DataFinality.dataStatusFinalized, 3⟩, ingestion_state := some ⟨some (tb 8), none, none⟩, waker := false }

/-- C3 counterexample to the claim as stated: an `Invalidate(tb 2)` response
is emitted, the subsequent run contains no further invalidation response
(only a reconfiguration answered `Ok` and a poll), yet the produced batch
contains the cursor `tb 0` whose number 0 is not greater than 2. -/
theorem C3_invalidation_contract_counterexample :
    step_op test_storage c3_state (.ingest (.invalidate (tb 2))) =
      .ok (.ingestResp (.invalidate (tb 2)), c3_state₁) ∧
    run test_storage c3_state₁ [.reconfig c3_cfg, .poll] =
      some ([.reconfigResp .ok,
        .polled (some (BatchCursor.finalized none [tb 0, tb 1, tb 2]))], c3_state₁) ∧
    (Output.reconfigResp ReconfigureResponse.ok).invalidation = none ∧
    (Output.polled (some (BatchCursor.finalized none [tb 0, tb 1, tb 2]))).invalidation = none ∧
    tb 0 ∈ (Output.polled (some (BatchCursor.finalized none [tb 0, tb 1, tb 2]))).payload_cursors ∧
    ¬ (tb 2).number < (tb 0).number := by
  decide

/-- C3 witness: in the window after the invalidation at `tb 2`, a finalized
ingestion message followed by a poll yields only cursors above 2; the
instance checks the first cursor of that batch. -/
theorem C3_invalidation_contract_witness :
    (tb 2).number < (tb 3).number := by
  have hwf : canonical_numbers_ok test_storage := by
    intro k cur h
    have h2 : Except.ok (some (tb k)) = (Except.ok (some cur) : Except StorageErr (Option GlobalBlockId)) := h
    injection h2 with h3
    injection h3 with h4
    rw [← h4]
    rfl
  exact C3_invalidation_contract_amended test_storage hwf c3_state c3_state₁
    (.ingest (.invalidate (tb 2))) (.ingestResp (.invalidate (tb 2))) (tb 2)
    (by decide) (by decide)
    [.ingest (.finalized (tb 8)), .poll]
    [.ingestResp .ok, .polled (some (BatchCursor.finalized (some (tb 2)) [tb 3, tb 4, tb 5]))]
    c3_stateW (by decide) (by decide) (by decide)
    (Output.polled (some (BatchCursor.finalized (some (tb 2)) [tb 3, tb 4, tb 5])))
    (by decide) (tb 3) (by decide)

/-- C6 (amended): (1) when `next_cursor` returns a `Pending(s, p)` batch the
only state field it modifies is the configuration's `pending_sent` flag (set
to true): current and the ingestion view are unchanged, so the next
non-pending batch starts at the same block number; (2) while `pending_sent`
is true no Pending batch is returned; (3) a `Pending` ingestion message
resets `pending_sent` to false; (4) in any run without reconfigurations and
without `Pending` ingestion messages, at most one Pending batch is emitted.
The amendment: a **reconfiguration** also resets `pending_sent` to false, so
a second Pending batch for the same pending tip is possible across a
reconfigure (see the counterexample); without reconfiguration the
at-most-one-per-tip rule holds. -/
theorem C6_pending_frame_amended :
    (∀ (storage : StorageReader) (st st' : ProducerState)
        (s : Option GlobalBlockId) (p : GlobalBlockId),
      next_cursor storage st = .ok (some (BatchCursor.pending s p), st') →
      ∃ conf, st.configuration = some conf ∧ s = conf.current ∧
        conf.data_finality = DataFinality.dataStatusPending ∧
        conf.pending_sent = false ∧
        storage.canonical_block_id (next_block_number_of conf.current) = .ok (some p) ∧
        st' = { st with configuration := some { conf with pending_sent := true } }) ∧
    (∀ (storage : StorageReader) (st st' : ProducerState)
        (conf : BatchConfiguration) (b : BatchCursor),
      st.configuration = some conf → conf.pending_sent = true →
      next_cursor storage st = .ok (some b, st') →
      ∀ s p, b ≠ BatchCursor.pending s p) ∧
    (∀ (storage : StorageReader) (st st' : ProducerState) (c : GlobalBlockId)
        (r : IngestionResponse) (n : Nat),
      handle_ingestion_message storage st (.pending c) = .ok (r, st', n) →
      st'.configuration = st.configuration.map set_pending_not_sent) ∧
    (∀ (storage : StorageReader) (ops : List Op) (st : ProducerState)
        (outs : List Output) (stF : ProducerState),
      run storage st ops = some (outs, stF) →
      (∀ op ∈ ops, op.is_reconfig = false) →
      (∀ op ∈ ops, op.is_pending_message = false) →
      outs.countP Output.is_pending_batch ≤ 1) := by
  refine ⟨?_, ?_, ?_, ?_⟩
  · intro storage st st' s p hnc
    obtain ⟨view, conf₁, hgis, hconf₁, hcases⟩ := next_cursor_ok_some hnc
    rcases hcases with ⟨f, hf, hn, hfin⟩ | hacc | ⟨p₀, hp₀, hnp, hpend⟩
    · obtain ⟨conf₂, cursors, h1x, h2x, h3x, h4x, hb, h5x⟩ :=
        next_cursor_finalized_ok_some hfin
      exact absurd hb (by simp)
    · obtain ⟨conf₂, cursor, h1x, h2x, h3x, h4x, hb, h5x⟩ :=
        next_cursor_accepted_ok_some hacc
      exact absurd hb (by simp)
    · obtain ⟨-, hload⟩ := get_ingestion_state_ok hgis
      have hsv : st.ingestion_state = some view := by
        rcases hload with hsv | ⟨-, hpn⟩
        · exact hsv
        · rw [hpn] at hp₀
          exact absurd hp₀ (by simp)
      rw [state_eta_of_view hsv] at hpend
      obtain ⟨conf₂, cursor, hconf₂, hdp, hps, hcan, hb, hst'⟩ :=
        next_cursor_pending_ok_some hpend
      have hce : conf₂ = conf₁ := by
        rw [hconf₂] at hconf₁
        exact Option.some.inj hconf₁
      rw [hce] at hconf₂ hdp hps hst'
      obtain ⟨hs, hp⟩ : s = conf₁.current ∧ p = cursor := by
        injection hb with hb1 hb2
        exact ⟨hb1, hb2⟩
      subst hp
      exact ⟨conf₁, hconf₂, hs, hdp, hps, hcan, hst'⟩
  · intro storage st st' conf b hconf hsent hnc s p hbp
    subst hbp
    obtain ⟨view, conf₁, hgis, hconf₁, hcases⟩ := next_cursor_ok_some hnc
    rcases hcases with ⟨f, hf, hn, hfin⟩ | hacc | ⟨p₀, hp₀, hnp, hpend⟩
    · obtain ⟨conf₂, cursors, h1x, h2x, h3x, h4x, hb, h5x⟩ :=
        next_cursor_finalized_ok_some hfin
      exact absurd hb (by simp)
    · obtain ⟨conf₂, cursor, h1x, h2x, h3x, h4x, hb, h5x⟩ :=
        next_cursor_accepted_ok_some hacc
      exact absurd hb (by simp)
    · obtain ⟨conf₂, cursor, hconf₂, hdp, hps, hcan, hb, hst'⟩ :=
        next_cursor_pending_ok_some hpend
      have hconf₂' : st.configuration = some conf₂ := hconf₂
      have hce : conf = conf₂ := by
        rw [hconf] at hconf₂'
        exact Option.some.inj hconf₂'
      rw [← hce] at hps
      rw [hsent] at hps
      exact absurd hps (by simp)
  · intro storage st st' c r n hh
    obtain ⟨-, -, -, hcfg, -⟩ := handle_pending_ok hh
    exact hcfg
  · intro storage ops st outs stF hrun hnr hnp
    exact run_pending_at_most_one ops st outs stF hrun hnr hnp

def c6_storage : StorageReader where
  canonical_block_id := fun k => .ok (some (tb k))
  read_status := fun _ => .ok (some .acceptedOnL1)
  read_header := fun c => .ok (some ⟨c.number, c.number⟩)
  highest_accepted_block := .ok none
  highest_finalized_block := .ok none

def c6_state : ProducerState := { configuration := some ⟨some (tb 15), false, DataFinality.dataStatusPending, 1⟩, ingestion_state := some ⟨none, none, some (tb 16)⟩, waker := false }

def c6_cfg : StreamConfiguration := ⟨2, some (tb 15), DataFinality.dataStatusPending, 1⟩

def c6_stateF : ProducerState := { configuration := some ⟨some (tb 15), true, DataFinality.dataStatusPending, 1⟩, ingestion_state := some ⟨none, none, some (tb 16)⟩, waker := false }

/-- C6 counterexample to the claim as stated: with the pending tip `tb 16`
unchanged and no `Pending` ingestion message, a reconfiguration between two
polls resets `pending_sent`, and the run emits the Pending batch for the
same tip twice. -/
theorem C6_pending_counterexample :
    run c6_storage c6_state [.poll, .reconfig c6_cfg, .poll] =
      some ([.polled (some (BatchCursor.pending (some (tb 15)) (tb 16))),
        .reconfigResp .ok,
        .polled (some (BatchCursor.pending (some (tb 15)) (tb 16)))], c6_stateF) ∧
    Op.poll.is_pending_message = false ∧
    (Op.reconfig c6_cfg).is_pending_message = false ∧
    ([Output.polled (some (BatchCursor.pending (some (tb 15)) (tb 16))),
      Output.reconfigResp .ok,
      Output.polled (some (BatchCursor.pending (some (tb 15)) (tb 16)))].countP
        Output.is_pending_batch) = 2 := by
  decide

/-- C6 witness: without reconfiguration, two consecutive polls at the same
pending tip emit at most one Pending batch. -/
theorem C6_pending_frame_witness :
    ([Output.polled (some (BatchCursor.pending (some (tb 15)) (tb 16))),
      Output.polled none].countP Output.is_pending_batch) ≤ 1 := by
  exact C6_pending_frame_amended.2.2.2 c6_storage [.poll, .poll] c6_state
    [Output.polled (some (BatchCursor.pending (some (tb 15)) (tb 16))),
     Output.polled none]
    { configuration := some ⟨some (tb 15), true, DataFinality.dataStatusPending, 1⟩, ingestion_state := some ⟨none, none, some (tb 16)⟩, waker := true }
    (by decide) (by decide) (by decide)

/-- C8 (amended): a stored wakeup handle is woken exactly once by
`reconfigure` when the configuration is actually replaced (response `Ok` or
`Invalidate`), and exactly once by every successfully returning
`handle_ingestion_message`; on a `MissingStartingCursor` early return the
state (including the stored handle) is left untouched and no wakeup is
performed — the amendment: the claim's "regardless of the response returned"
fails for `MissingStartingCursor` (see the counterexample). -/
theorem C8_wakeup_amended :
    (∀ (storage : StorageReader) (cfg : StreamConfiguration)
        (st st' : ProducerState) (r : ReconfigureResponse) (n : Nat),
      reconfigure storage cfg st = .ok (r, st', n) →
      (r ≠ ReconfigureResponse.missingStartingCursor →
        n = (if st.waker then 1 else 0) ∧ st'.waker = false) ∧
      (r = ReconfigureResponse.missingStartingCursor → n = 0 ∧ st' = st)) ∧
    (∀ (storage : StorageReader) (msg : IngestionMessage)
        (st st' : ProducerState) (r : IngestionResponse) (n : Nat),
      handle_ingestion_message storage st msg = .ok (r, st', n) →
      n = (if st.waker then 1 else 0) ∧ st'.waker = false) := by
  constructor
  · intro storage cfg st st' r n h
    rcases reconfigure_ok_cases h with ⟨hr, hst, hn⟩ | ⟨hn, current, hst, hcase⟩
    · exact ⟨fun hne => absurd hr hne, fun _ => ⟨hn, hst⟩⟩
    · refine ⟨fun _ => ⟨hn, by rw [hst]⟩, fun hmr => ?_⟩
      rcases hcase with hrok | ⟨c, hric, -⟩
      · rw [hmr] at hrok
        exact absurd hrok (by simp)
      · rw [hmr] at hric
        exact absurd hric (by simp)
  · intro storage msg st st' r n h
    cases msg with
    | pending c =>
      obtain ⟨-, hn, hw, -⟩ := handle_pending_ok h
      exact ⟨hn, hw⟩
    | accepted c =>
      obtain ⟨-, hn, hw, -⟩ := handle_accepted_ok h
      exact ⟨hn, hw⟩
    | finalized c =>
      obtain ⟨-, hn, hw, -⟩ := handle_finalized_ok h
      exact ⟨hn, hw⟩
    | invalidate c =>
      obtain ⟨-, hn, hw, -⟩ := handle_invalidate_ok h
      exact ⟨hn, hw⟩

def c8_storage : StorageReader where
  canonical_block_id := fun k => .ok (some (tb k))
  read_status := fun _ => .ok none
  read_header := fun c => .ok (some ⟨c.number, c.number⟩)
  highest_accepted_block := .ok none
  highest_finalized_block := .ok none

def c8_state : ProducerState := { configuration := none, ingestion_state := none, waker := true }

def c8_cfg : StreamConfiguration := ⟨3, some (tb 8), DataFinality.dataStatusFinalized, 3⟩

/-- C8 counterexample to the claim as stated: a wakeup handle is stored, the
starting cursor's status is missing, and the `reconfigure` invocation returns
`MissingStartingCursor` performing zero wakeups, leaving the handle stored. -/
theorem C8_wakeup_counterexample :
    c8_state.waker = true ∧
    reconfigure c8_storage c8_cfg c8_state =
      .ok (.missingStartingCursor, c8_state, 0) := by
  decide

def c8w_state : ProducerState := { configuration := none, ingestion_state := some ⟨none, none, none⟩, waker := true }

/-- C8 witness: a successfully returning ingestion message at a state with a
stored handle performs exactly one wakeup and clears the slot. -/
theorem C8_wakeup_amended_witness :
    (1 : Nat) = (if c8w_state.waker then 1 else 0) ∧
    ({ configuration := none, ingestion_state := some ⟨some (tb 7), none, none⟩, waker := false } : ProducerState).waker = false := by
  exact C8_wakeup_amended.2 test_storage (.finalized (tb 7)) c8w_state
    { configuration := none, ingestion_state := some ⟨some (tb 7), none, none⟩, waker := false }
    IngestionResponse.ok 1 (by decide)

/-- C4: `reconfigure(cfg)` with a starting cursor present: (a) a zero-hash
cursor whose number has no canonical block yields `MissingStartingCursor`;
(b) a zero-hash cursor is first replaced by the canonical cursor at its
number, the call continuing exactly as `reconfigure_resolved` on that
cursor; (c) a resolved cursor with absent status yields
`MissingStartingCursor`; (d) an accepted or finalized status sets
`current = Some(cursor)`, replaces the stored configuration with
`{data_finality, batch_size, pending_sent = false, current}`, wakes the
subscription and responds `Ok`; (e) otherwise the producer walks backward
via parent headers until an accepted/finalized ancestor `a k`, sets
`current = Some(a k)`, replaces the configuration likewise and responds
`Invalidate(a k)`; (f) a missing status or missing header anywhere during
the walk yields `MissingStartingCursor` with the state untouched. -/
theorem C4_reconfigure_starting_cursor :
    ∀ (storage : StorageReader) (cfg : StreamConfiguration)
      (st : ProducerState) (sc : GlobalBlockId),
      cfg.starting_cursor = some sc →
      (sc.hash = 0 → storage.canonical_block_id sc.number = .ok none →
        reconfigure storage cfg st = .ok (.missingStartingCursor, st, 0)) ∧
      (∀ resolved, sc.hash = 0 →
        storage.canonical_block_id sc.number = .ok (some resolved) →
        reconfigure storage cfg st = reconfigure_resolved storage cfg st resolved) ∧
      (sc.hash ≠ 0 → storage.read_status sc = .ok none →
        reconfigure storage cfg st = .ok (.missingStartingCursor, st, 0)) ∧
      (∀ status, sc.hash ≠ 0 → storage.read_status sc = .ok (some status) →
        (status.is_accepted || status.is_finalized) = true →
        reconfigure storage cfg st = .ok (.ok, { configuration := some { current := some sc, pending_sent := false, data_finality := cfg.finality, batch_size := cfg.batch_size }, ingestion_state := st.ingestion_state, waker := false }, if st.waker then 1 else 0)) ∧
      (∀ (status : BlockStatus) (a : Nat → GlobalBlockId) (k : Nat),
        sc.hash ≠ 0 → storage.read_status sc = .ok (some status) →
        (status.is_accepted || status.is_finalized) = false →
        a 0 = sc →
        (∀ i, i < k → ∃ s h, storage.read_status (a i) = .ok (some s) ∧
          (s.is_accepted || s.is_finalized) = false ∧
          storage.read_header (a i) = .ok (some h) ∧
          from_block_header_parent h = a (i + 1)) →
        (∀ i, i < k → (a (i + 1)).number < (a i).number) →
        (∃ s, storage.read_status (a k) = .ok (some s) ∧
          (s.is_accepted || s.is_finalized) = true) →
        reconfigure storage cfg st = .ok (.invalidate (a k), { configuration := some { current := some (a k), pending_sent := false, data_finality := cfg.finality, batch_size := cfg.batch_size }, ingestion_state := st.ingestion_state, waker := false }, if st.waker then 1 else 0)) ∧
      (∀ (status : BlockStatus) (a : Nat → GlobalBlockId) (j : Nat),
        sc.hash ≠ 0 → storage.read_status sc = .ok (some status) →
        (status.is_accepted || status.is_finalized) = false →
        a 0 = sc →
        (∀ i, i < j → ∃ s h, storage.read_status (a i) = .ok (some s) ∧
          (s.is_accepted || s.is_finalized) = false ∧
          storage.read_header (a i) = .ok (some h) ∧
          from_block_header_parent h = a (i + 1)) →
        (∀ i, i < j → (a (i + 1)).number < (a i).number) →
        (storage.read_status (a j) = .ok none ∨
          (∃ s, storage.read_status (a j) = .ok (some s) ∧
            (s.is_accepted || s.is_finalized) = false ∧
            storage.read_header (a j) = .ok none)) →
        reconfigure storage cfg st = .ok (.missingStartingCursor, st, 0)) := by
  intro storage cfg st sc hsc
  refine ⟨?_, ?_, ?_, ?_, ?_, ?_⟩
  · intro h0 hcan
    unfold reconfigure
    rw [hsc]
    try simp only []
    rw [if_pos h0, hcan]
    simp [liftStorage]
  · intro resolved h0 hcan
    unfold reconfigure
    rw [hsc]
    try simp only []
    rw [if_pos h0, hcan]
    simp [liftStorage]
  · intro hne0 hstat
    unfold reconfigure
    rw [hsc]
    try simp only []
    rw [if_neg hne0]
    unfold reconfigure_resolved
    rw [hstat]
    simp [liftStorage]
  · intro status hne0 hstat hacc
    unfold reconfigure
    rw [hsc]
    try simp only []
    rw [if_neg hne0]
    unfold reconfigure_resolved
    rw [hstat]
    simp only [liftStorage]
    try simp only []
    rw [if_pos hacc, reconfigure_finish_eq]
  · intro status a k hne0 hstat hnacc ha0 hstep hdec hk
    have hbound : k ≤ sc.number := by
      have h1 := chain_number_le k hdec
      rw [ha0] at h1
      omega
    have hwalk := walk_back_reaches k a hstep hk (sc.number + 1) (by omega)
    rw [ha0] at hwalk
    unfold reconfigure
    rw [hsc]
    try simp only []
    rw [if_neg hne0]
    unfold reconfigure_resolved
    rw [hstat]
    simp only [liftStorage]
    try simp only []
    rw [if_neg (by rw [hnacc]; simp), hwalk]
    try simp only []
    rw [reconfigure_finish_eq]
  · intro status a j hne0 hstat hnacc ha0 hstep hdec hj
    have hbound : j ≤ sc.number := by
      have h1 := chain_number_le j hdec
      rw [ha0] at h1
      omega
    have hwalk := walk_back_missing j a hstep hj (sc.number + 1) (by omega)
    rw [ha0] at hwalk
    unfold reconfigure
    rw [hsc]
    try simp only []
    rw [if_neg hne0]
    unfold reconfigure_resolved
    rw [hstat]
    simp only [liftStorage]
    try simp only []
    rw [if_neg (by rw [hnacc]; simp), hwalk]

/-- A storage whose blocks 7 and 8 have been reorged out (status Rejected),
with well-formed parent headers; the walk from block 8 ends at the accepted
block 6.  Mirrors the repository's
`test_configure_with_invalidated_starting_cursor` unit test. -/
def walk_storage : StorageReader where
  canonical_block_id := fun k => .ok (some (tb k))
  read_status := fun c =>
    .ok (some (if c.number = 8 ∨ c.number = 7 then .rejected else .acceptedOnL1))
  read_header := fun c => .ok (some ⟨c.number, c.number⟩)
  highest_accepted_block := .ok (some (tb 15))
  highest_finalized_block := .ok (some (tb 10))

def c4_cfg : StreamConfiguration := ⟨4, some (tb 8), DataFinality.dataStatusAccepted, 3⟩

/-- C4 witness: reconfiguring at the reorged-out block 8 walks back through
block 7 and responds `Invalidate(tb 6)` with `current = Some (tb 6)`. -/
theorem C4_reconfigure_starting_cursor_witness :
    reconfigure walk_storage c4_cfg producer_new = .ok (.invalidate (tb 6), { configuration := some ⟨some (tb 6), false, DataFinality.dataStatusAccepted, 3⟩, ingestion_state := none, waker := false }, 0) := by
  have h := (C4_reconfigure_starting_cursor walk_storage c4_cfg producer_new
      (tb 8) rfl).2.2.2.2.1 BlockStatus.rejected
      (fun i => ⟨8 - i, 9 - i⟩) 2 (by decide) (by decide) (by decide) (by decide)
      (by
        intro i hi
        match i, hi with
        | 0, _ =>
          exact ⟨BlockStatus.rejected, ⟨8, 8⟩, by decide, by decide, by decide, by decide⟩
        | 1, _ =>
          exact ⟨BlockStatus.rejected, ⟨7, 7⟩, by decide, by decide, by decide, by decide⟩)
      (by decide)
      ⟨BlockStatus.acceptedOnL1, by decide, by decide⟩
  rw [h]
  decide

end Apibara
